import Mathlib

/-!
Shallow embedding of `src/snpedia_scraper.py` (SNPedia-Scraper).

The scraper's observable behaviour is modelled as pure state transitions
plus an event trace.  External collaborators (the MediaWiki HTTP API, the
sqlite connection, the running/paused flags mutated by the controller
thread) are modelled as oracles:
  * `flags : Nat → Bool × Bool` — the values of `(self.running, self.paused)`
    observed at each point in model time (time advances by the `time.sleep`
    calls of the source);
  * `fetch` — `_fetch_batch_content`'s result for a chunk, either a
    transport error or a mapping title ↦ optional wikitext;
  * `listing` — the `categorymembers` query result for the n-th listing
    call, either an error or `(members, optional cmcontinue token)`.
The sqlite tables are embedded as association lists: `rows` for the
category table (identifier, content) and `progress` for the checkpoint
table (key, value).  The `scraped_at` wall-clock column is not modelled
(no claim mentions it).
-/

namespace SNPedia

/-- A row of a harvested-category table: `(identifier, content)`. -/
abbrev Row := String × String

/-- Observable actions of the scraper, in program order. -/
inductive Event where
  /-- `_batch_check_exists` bulk `SELECT ... IN (...)` for a page. -/
  | existsQuery (identifiers : List String)
  /-- `_fetch_batch_content` network call for one chunk. -/
  | fetchBatch (batch : List String)
  /-- a committed `_save_entries` insert transaction. -/
  | insertTx (entries : List Row)
  /-- `save_progress(count_key, str(count))`. -/
  | saveCount (value : Nat)
  /-- `save_progress(continue_key, cmcontinue)`. -/
  | saveCursor (value : String)
  /-- `status_callback(count, total, identifier)`. -/
  | status (count total : Nat) (identifier : String)
  /-- `log_callback(message)`. -/
  | log (message : String)
  /-- `_log_error(identifier, error_type, message)` error-journal line. -/
  | errorLog (identifier errType : String)
  /-- the `categorymembers` listing request, with the cursor it used. -/
  | listMembers (cursor : Option String)
  /-- `time.sleep(secs)`. -/
  | sleep (secs : Nat)
  /-- `threading.Thread(...).start()` in `SNPediaScraper.start`. -/
  | spawnWorker
  deriving Repr, DecidableEq

/-- Charwise space→underscore replacement (structural recursion so that
concrete runs reduce inside the kernel). -/
def normalizeChars : List Char → List Char
  | [] => []
  | c :: rest => (if c == ' ' then '_' else c) :: normalizeChars rest

/-- `page['title'].replace(' ', '_')` — the pattern is the single space
character, so the replacement is exactly charwise. -/
def normalizeTitle (s : String) : String := ⟨normalizeChars s.data⟩

/-- The identifier (primary-key) column of a table. -/
def rowKeys (rows : List Row) : List String := rows.map Prod.fst

/-- sqlite `SELECT 1 FROM t WHERE id = ?` — is the identifier present? -/
def memberOfRows (rows : List Row) (id : String) : Bool :=
  rows.any (fun r => r.1 == id)

/-- `_batch_check_exists`: one `SELECT id FROM t WHERE id IN (...)`;
the result set is the table's identifiers that occur among the
candidates (python builds a `set`, hence `dedup`). -/
def batch_check_exists (rows : List Row) (identifiers : List String) : List String :=
  ((rowKeys rows).filter (fun k => identifiers.contains k)).dedup

/-- The page filter `[i for i in all_identifiers if i not in existing_identifiers]`. -/
def identifiersToFetch (all existing : List String) : List String :=
  all.filter (fun i => !(existing.contains i))

/-- Fuelled worker for `chunksOf` (fuel ≥ list length suffices; structural
recursion on the fuel keeps concrete runs kernel-reducible). -/
def chunksOfFuel (n : Nat) : Nat → List α → List (List α)
  | 0, _ => []
  | _, [] => []
  | fuel + 1, x :: rest =>
    if n = 0 then []
    else (x :: rest).take n :: chunksOfFuel n fuel ((x :: rest).drop n)

/-- `for i in range(0, len(xs), n): xs[i:i+n]` — consecutive chunks of
size at most `n` (`n = 0` never occurs in the source; mapped to `[]`). -/
def chunksOf (n : Nat) (xs : List α) : List (List α) :=
  chunksOfFuel n xs.length xs

/-- sqlite `INSERT INTO t (id, content, scraped_at) VALUES (?,?,?)`:
fails with the IntegrityError for a duplicate primary key. -/
def insertRow (rows : List Row) (r : Row) : Except String (List Row) :=
  if memberOfRows rows r.1 then .error "DuplicateKey" else .ok (rows ++ [r])

/-- `conn.executemany(...)`: sequential inserts on the connection's
uncommitted state, stopping at the first failure. -/
def executemany (rows : List Row) : List Row → Except String (List Row)
  | [] => .ok rows
  | e :: rest =>
    match insertRow rows e with
    | .error s => .error s
    | .ok rows₂ => executemany rows₂ rest

/-- `DatabaseConnectionPool.transaction`: run the body, commit its state
on normal completion, roll back to the entry state when it raises
(re-raising the condition). -/
def transaction (db : List Row) (body : List Row → Except String (List Row)) :
    Except String Unit × List Row :=
  match body db with
  | .ok db₂ => (.ok (), db₂)
  | .error s => (.error s, db)

/-- `_save_entries(table, id_column, entries)`: all entries in one
transaction; an empty list returns immediately without touching the DB. -/
def save_entries (rows : List Row) (entries : List Row) :
    Except String Unit × List Row :=
  if entries.isEmpty then (.ok (), rows)
  else transaction rows (fun db => executemany db entries)

/-- `INSERT OR REPLACE INTO progress (key, value) VALUES (?, ?)`. -/
def upsertProgress (p : List (String × String)) (key value : String) :
    List (String × String) :=
  if p.any (fun kv => kv.1 == key) then
    p.map (fun kv => if kv.1 == key then (key, value) else kv)
  else p ++ [(key, value)]

/-- `get_progress`: `SELECT value FROM progress WHERE key = ?`. -/
def get_progress (p : List (String × String)) (key : String) : Option String :=
  (p.find? (fun kv => kv.1 == key)).map Prod.snd

/-- The result of one `_fetch_batch_content` call: a finite mapping
title ↦ optional wikitext.  A title absent from the list is a missing
key (`page_id == '-1'`, skipped by the parser); a title mapped to `none`
is a page with no revisions (`results[title] = None`). -/
abbrev FetchResult := List (String × Option String)

/-- `batch_results[identifier]` lookup: `none` = key missing,
`some none` = key present with `None`, `some (some c)` = content. -/
def lookupFetch (res : FetchResult) (id : String) : Option (Option String) :=
  (res.find? (fun p => p.1 == id)).map Prod.snd

/-- The per-identifier loop of the chunk body (source lines 308-320):
builds `entries_to_save` from the batch, emitting one skip-log per
identifier whose result is missing or `None`. -/
def collectEntries (res : FetchResult) : List String → List Row × List Event
  | [] => ([], [])
  | id :: rest =>
    let acc := collectEntries res rest
    match lookupFetch res id with
    | none =>
      (acc.1, .log ("Page not found for " ++ id ++ ". Skipping.") :: acc.2)
    | some none =>
      (acc.1, .log ("No content for " ++ id ++ ". Skipping.") :: acc.2)
    | some (some c) => ((id, c) :: acc.1, acc.2)

/-- `count += 1; status_callback(count, total_count, identifier)` for each
saved entry, starting from `base`. -/
def statusEvents (base total : Nat) : List Row → List Event
  | [] => []
  | (id, _) :: rest => .status (base + 1) total id :: statusEvents (base + 1) total rest

/-- Char-list prefix test (structural). -/
def startsWithChars : List Char → List Char → Bool
  | _, [] => true
  | [], _ :: _ => false
  | h :: hs, n :: ns => h == n && startsWithChars hs ns

/-- python's `needle in hay` substring test, structurally on char lists. -/
def containsChars : List Char → List Char → Bool
  | [], needle => needle.isEmpty
  | h :: rest, needle => startsWithChars (h :: rest) needle || containsChars rest needle

/-- `"502" in str(e)` error-type classification of the except block. -/
def errorClass (e : String) : String :=
  if containsChars e.data "502".data then "502_ERROR" else "BATCH_ERROR"

/-- The external world the scraper interacts with. -/
structure Oracles where
  /-- `(self.running, self.paused)` as observed at each model time. -/
  flags : Nat → Bool × Bool
  /-- `_fetch_batch_content` as seen for a chunk. -/
  fetch : List String → Except String FetchResult
  /-- the n-th `categorymembers` request, given the cursor it was sent:
  either raises or returns `(members, optional cmcontinue)`. -/
  listing : Nat → Option String → Except String (List String × Option String)
  /-- bound on the number of pause-poll iterations the model unfolds. -/
  pauseFuel : Nat

/-- The per-category configuration (`_scrape_category` arguments). -/
structure Job where
  countKey : String
  continueKey : String
  total : Nat
  itemName : String
  batchSize : Nat

/-- The inner pause-wait loop (source lines 295-298):
`while self.paused: if not self.running: break; time.sleep(1)`.
Returns the model time at which the loop exits, or `none` when the fuel
is exhausted while still paused-and-running (the python loop would still
be sleeping). -/
def pauseWait (flags : Nat → Bool × Bool) : Nat → Nat → Option Nat
  | _, 0 => none
  | t, fuel + 1 =>
    if (flags t).2 then
      if !(flags t).1 then some t
      else pauseWait flags (t + 1) fuel
    else some t

/-- The mutable state of the chunk loop (source lines 291-350). -/
structure ChunkSt where
  rows : List Row
  progress : List (String × String)
  count : Nat
  t : Nat
  events : List Event
  /-- `break` was taken (stop observed at a chunk boundary). -/
  broke : Bool
  /-- the pause-wait fuel ran out: the worker is still inside the wait. -/
  blocked : Bool
  deriving Repr

/-- One iteration of the chunk loop: the running check, the pause-wait,
then the `try` body (fetch, filter, save, count/status/progress) or the
`except` fallback (log, error-journal every batch member, 30s backoff). -/
def chunkStep (oc : Oracles) (job : Job) (st : ChunkSt) (batch : List String) : ChunkSt :=
  if st.broke || st.blocked then st
  else if !(oc.flags st.t).1 then { st with broke := true }
  else
    match pauseWait oc.flags st.t oc.pauseFuel with
    | none => { st with blocked := true }
    | some t₁ =>
      match oc.fetch batch with
      | .error e =>
        { st with
          t := t₁ + 30,
          events := st.events
            ++ [.fetchBatch batch,
                .log ("Batch fetch error: " ++ e
                  ++ ". Retrying individual items in 30 seconds...")]
            ++ batch.map (fun id => .errorLog id (errorClass e))
            ++ [.sleep 30] }
      | .ok res =>
        let collected := collectEntries res batch
        let entries := collected.1
        let skipEvs := collected.2
        if entries.isEmpty then
          { st with
            t := t₁ + 3,
            events := st.events ++ [.fetchBatch batch] ++ skipEvs ++ [.sleep 3] }
        else
          match save_entries st.rows entries with
          | (.error e, rows₂) =>
            { st with
              rows := rows₂,
              t := t₁ + 30,
              events := st.events
                ++ [.fetchBatch batch] ++ skipEvs
                ++ [.log ("Batch fetch error: " ++ e
                    ++ ". Retrying individual items in 30 seconds...")]
                ++ batch.map (fun id => .errorLog id (errorClass e))
                ++ [.sleep 30] }
          | (.ok _, rows₂) =>
            { st with
              rows := rows₂,
              count := st.count + entries.length,
              progress := upsertProgress st.progress job.countKey
                (toString (st.count + entries.length)),
              t := t₁ + 3,
              events := st.events
                ++ [.fetchBatch batch] ++ skipEvs
                ++ [.insertTx entries]
                ++ statusEvents st.count job.total entries
                ++ [.saveCount (st.count + entries.length),
                    .log ("Scraped batch of " ++ toString entries.length ++ " "
                      ++ job.itemName ++ "s. Total: "
                      ++ toString (st.count + entries.length)),
                    .sleep 3] }

/-- `for i in range(0, len(identifiers_to_fetch), batch_size): ...` -/
def runChunks (oc : Oracles) (job : Job) (st : ChunkSt) (chunks : List (List String)) :
    ChunkSt :=
  chunks.foldl (chunkStep oc job) st

/-- The mutable state of the outer `while self.running` loop. -/
structure EngineSt where
  rows : List Row
  progress : List (String × String)
  count : Nat
  /-- `params['cmcontinue']` (absent at category start). -/
  cursor : Option String
  t : Nat
  events : List Event
  /-- the loop has exited (`break` or `self.running` became false). -/
  done : Bool
  /-- the worker is stuck inside a pause-wait (model fuel exhausted). -/
  blocked : Bool
  /-- number of listing requests issued so far (oracle index). -/
  calls : Nat
  deriving Repr

/-- The chunk-loop entry state for one page (source lines 270-289):
normalize titles, one bulk existence query, the page-level skip log. -/
def pageStart (job : Job) (st : EngineSt) (members : List String) : ChunkSt :=
  let all := members.map normalizeTitle
  let existing := batch_check_exists st.rows all
  { rows := st.rows, progress := st.progress, count := st.count, t := st.t,
    events := st.events ++ [.existsQuery all]
      ++ (if existing.length > 0 then
            [.log ("Skipping " ++ toString existing.length ++ " already scraped "
              ++ job.itemName ++ "s")]
          else []),
    broke := false, blocked := false }

/-- The chunks of a page: `identifiers_to_fetch` split by `batch_size`. -/
def pageChunks (job : Job) (st : EngineSt) (members : List String) : List (List String) :=
  let all := members.map normalizeTitle
  chunksOf job.batchSize (identifiersToFetch all (batch_check_exists st.rows all))

/-- Source lines 270-360: process one successfully listed page — the
chunk loop, then the cursor handling (`save_progress(continue_key, ...)`
when a `cmcontinue` was returned, else log completion and break) and the
2s inter-page sleep. -/
def processPage (oc : Oracles) (job : Job) (st : EngineSt)
    (members : List String) (nextCursor : Option String) : EngineSt :=
  let c₁ := runChunks oc job (pageStart job st members) (pageChunks job st members)
  if c₁.blocked then
    { st with
      rows := c₁.rows, progress := c₁.progress, count := c₁.count,
      t := c₁.t, events := c₁.events, blocked := true }
  else
    match nextCursor with
    | some c =>
      { st with
        rows := c₁.rows,
        progress := upsertProgress c₁.progress job.continueKey c,
        count := c₁.count, cursor := some c, t := c₁.t + 2,
        events := c₁.events ++ [.saveCursor c, .sleep 2] }
    | none =>
      { st with
        rows := c₁.rows, progress := c₁.progress, count := c₁.count,
        t := c₁.t,
        events := c₁.events
          ++ [.log ("Scraping complete: Reached end of " ++ job.itemName ++ " list.")],
        done := true }

/-- One iteration of `while self.running` (source lines 260-369): the
running check, the paused poll, the listing request; on a listing error
the generic except handler logs and backs off 30s without touching the
cursor or the checkpoints. -/
def outerStep (oc : Oracles) (job : Job) (st : EngineSt) : EngineSt :=
  if st.done || st.blocked then st
  else if !(oc.flags st.t).1 then { st with done := true }
  else if (oc.flags st.t).2 then
    { st with t := st.t + 1, events := st.events ++ [.sleep 1] }
  else
    match oc.listing st.calls st.cursor with
    | .error e =>
      { st with
        calls := st.calls + 1, t := st.t + 30,
        events := st.events
          ++ [.listMembers st.cursor,
              .log ("Error: " ++ e ++ ". Retrying in 30 seconds..."),
              .sleep 30] }
    | .ok (members, nextCursor) =>
      processPage oc job
        { st with
          calls := st.calls + 1,
          events := st.events ++ [.listMembers st.cursor] }
        members nextCursor

/-- The outer loop, unfolded for `fuel` iterations. -/
def outerLoop (oc : Oracles) (job : Job) : Nat → EngineSt → EngineSt
  | 0, st => st
  | fuel + 1, st =>
    if st.done || st.blocked then st
    else outerLoop oc job fuel (outerStep oc job st)

/-- Decimal digit fold, most-significant first — the value python's
`int()` computes on a digit string. -/
def parseCountGo : List Char → Nat → Nat
  | [], acc => acc
  | c :: rest, acc => parseCountGo rest (acc * 10 + (c.toNat - '0'.toNat))

/-- python `int(s)` on the decimal strings this program stores (the
scraper only ever writes `str(count)`; `int` would raise on anything
else, a state the model never reaches). -/
def parseCount (s : String) : Nat := parseCountGo s.data 0

/-- `int(self.get_progress(count_key) or 0)` — `""` and absence are both
falsy in python. -/
def rehydrateCount (progress : List (String × String)) (key : String) : Nat :=
  match get_progress progress key with
  | none => 0
  | some s => if s.data.isEmpty then 0 else parseCount s

/-- `last_continue = self.get_progress(continue_key); if last_continue: ...`
— the cursor is only set when the stored value is truthy. -/
def rehydrateCursor (progress : List (String × String)) (key : String) : Option String :=
  match get_progress progress key with
  | none => none
  | some s => if s.isEmpty then none else some s

/-- `_scrape_category`'s entry state (source lines 246-258): rehydrate
cursor and count from the progress table. -/
def initEngine (rows : List Row) (progress : List (String × String)) (job : Job) :
    EngineSt :=
  { rows := rows, progress := progress,
    count := rehydrateCount progress job.countKey,
    cursor := rehydrateCursor progress job.continueKey,
    t := 0, events := [], done := false, blocked := false, calls := 0 }

/-- The controller-visible state touched by `start/pause/resume/stop`. -/
structure Ctl where
  running : Bool
  paused : Bool
  /-- number of worker threads spawned so far. -/
  workers : Nat
  deriving Repr, DecidableEq

/-- `SNPediaScraper.start` (source lines 113-119). -/
def start (c : Ctl) : Ctl × List Event :=
  if !c.running then
    ({ running := true, paused := false, workers := c.workers + 1 },
      [.spawnWorker, .log "Scraper started."])
  else (c, [])

/-- `SNPediaScraper.pause`. -/
def pause (c : Ctl) : Ctl × List Event :=
  ({ c with paused := true }, [.log "Scraper paused."])

/-- `SNPediaScraper.resume`. -/
def resume (c : Ctl) : Ctl × List Event :=
  ({ c with paused := false }, [.log "Scraper resumed."])

/-- `SNPediaScraper.stop`. -/
def stop (c : Ctl) : Ctl × List Event :=
  ({ c with running := false }, [.log "Scraper stopping..."])

/-- Trace checker for the count-checkpoint discipline: walking the event
list it tracks `(ins, lastSave)` — the records inserted so far and the
last persisted count — and rejects (`none`) any persisted count that is
below the previous one or ahead of `c₀ + ins`, the records durably
inserted since the run began. -/
def countStep (c₀ : Nat) : Option (Nat × Nat) → Event → Option (Nat × Nat)
  | none, _ => none
  | some (ins, lastS), Event.insertTx es => some (ins + es.length, lastS)
  | some (ins, lastS), Event.saveCount v =>
    if lastS ≤ v ∧ v ≤ c₀ + ins then some (ins, v) else none
  | some s, _ => some s

/-- Run the count-checkpoint checker over a whole trace. -/
def checkCount (c₀ : Nat) (evts : List Event) : Option (Nat × Nat) :=
  evts.foldl (countStep c₀) (some (0, c₀))

/-- The SNP job descriptor as `_scrape_loop` builds it. -/
def jobSNP : Job :=
  { countKey := "snp_count", continueKey := "cmcontinue_snp",
    total := 110000, itemName := "SNP", batchSize := 50 }

/-- The genotype job descriptor as `_scrape_loop` builds it. -/
def jobGenotype : Job :=
  { countKey := "genotype_count", continueKey := "cmcontinue_genotype",
    total := 104887, itemName := "genotype", batchSize := 50 }

/-- The identifiers carried by the `status` events of a trace. -/
def statusIdsOf (evts : List Event) : List String :=
  evts.filterMap (fun e => match e with | .status _ _ id => some id | _ => none)

/-- The chunk fetches (network batch calls) of a trace. -/
def fetchesOf (evts : List Event) : List (List String) :=
  evts.filterMap (fun e => match e with | .fetchBatch b => some b | _ => none)

/-- The bulk existence queries of a trace. -/
def existsQueriesOf (evts : List Event) : List (List String) :=
  evts.filterMap (fun e => match e with | .existsQuery l => some l | _ => none)

/-- The persisted pagination cursors of a trace. -/
def cursorSavesOf (evts : List Event) : List String :=
  evts.filterMap (fun e => match e with | .saveCursor c => some c | _ => none)

/-- The persisted count-checkpoint values of a trace. -/
def countSavesOf (evts : List Event) : List Nat :=
  evts.filterMap (fun e => match e with | .saveCount v => some v | _ => none)

/-- The count-checkpoint invariant carried through a run that started with
rehydrated count `c₀`, `r₀` stored rows, and `initGP` as the stored
count-checkpoint value: the in-memory count advances exactly with the rows
durably inserted, the event trace passes the `countStep` checker (no saved
count ever decreases or runs ahead of the committed inserts), and the
stored checkpoint value is either untouched or the decimal repr of a count
between `c₀` and the current one. -/
def CountInv (c₀ r₀ : Nat) (initGP : Option String) (countKey : String)
    (count : Nat) (rows : List Row) (progress : List (String × String))
    (events : List Event) : Prop :=
  count + r₀ = c₀ + rows.length ∧
  (∃ ins lastS, List.foldl (countStep c₀) (some (0, c₀)) events = some (ins, lastS) ∧
    count = c₀ + ins ∧ lastS ≤ count) ∧
  (get_progress progress countKey = initGP ∨
    ∃ m, c₀ ≤ m ∧ m ≤ count ∧ get_progress progress countKey = some (toString m))

theorem executemany_append (rows : List Row) (entries : List Row) (out : List Row)
    (h : executemany rows entries = .ok out) : out = rows ++ entries := by
  induction entries generalizing rows with
  | nil => simp [executemany] at h; simp [h]
  | cons e rest ih =>
    simp only [executemany] at h
    cases hin : insertRow rows e with
    | error s => rw [hin] at h; exact absurd h (by simp)
    | ok rows₂ =>
      rw [hin] at h
      have := ih rows₂ h
      simp only [insertRow] at hin
      split at hin
      · exact absurd hin (by simp)
      · cases hin
        simp [this]

theorem executemany_error_of_exists (rows : List Row) (entries : List Row)
    (h : ∃ r ∈ entries, memberOfRows rows r.1 = true) :
    ∃ s, executemany rows entries = .error s := by
  induction entries generalizing rows with
  | nil => simp at h
  | cons e rest ih =>
    obtain ⟨r, hr, hmem⟩ := h
    simp only [executemany]
    cases hin : insertRow rows e with
    | error s => exact ⟨s, rfl⟩
    | ok rows₂ =>
      simp only [insertRow] at hin
      split at hin
      · exact absurd hin (by simp)
      · rename_i hnot
        injection hin with h2
        subst h2
        rcases List.mem_cons.mp hr with rfl | hr₂
        · exact absurd hmem (by simp [hnot])
        · refine ih (rows ++ [e]) ⟨r, hr₂, ?_⟩
          simp only [memberOfRows, List.any_append, Bool.or_eq_true]
          exact Or.inl (by simpa [memberOfRows] using hmem)

theorem executemany_error_eq (rows entries : List Row) (s : String)
    (h : executemany rows entries = .error s) : s = "DuplicateKey" := by
  induction entries generalizing rows with
  | nil => simp [executemany] at h
  | cons e rest ih =>
    simp only [executemany, insertRow] at h
    by_cases hm : memberOfRows rows e.1 = true
    · simp [hm] at h
      exact h.symm
    · simp only [hm] at h
      simp only [Bool.false_eq_true, if_false] at h
      exact ih (rows ++ [e]) h

theorem get_progress_cons (x : String × String) (l : List (String × String)) (k : String) :
    get_progress (x :: l) k = if x.1 == k then some x.2 else get_progress l k := by
  simp only [get_progress, List.find?]
  by_cases h : x.1 == k <;> simp [h]

theorem get_progress_append_self (p : List (String × String)) (k v : String)
    (h : p.any (fun kv => kv.1 == k) = false) :
    get_progress (p ++ [(k, v)]) k = some v := by
  induction p with
  | nil => simp [get_progress_cons]
  | cons kv rest ih =>
    simp only [List.any_cons, Bool.or_eq_false_iff] at h
    simp only [List.cons_append, get_progress_cons]
    rw [if_neg (by simp [h.1])]
    exact ih h.2

theorem get_progress_append_ne (p : List (String × String)) (k k₂ v : String)
    (hne : k ≠ k₂) :
    get_progress (p ++ [(k, v)]) k₂ = get_progress p k₂ := by
  induction p with
  | nil =>
    simp only [List.nil_append, get_progress_cons]
    rw [if_neg (by simp [hne])]
  | cons kv rest ih =>
    simp only [List.cons_append, get_progress_cons]
    by_cases hk : (kv.1 == k₂) = true
    · simp [hk]
    · rw [if_neg hk, if_neg hk]
      exact ih

theorem get_progress_map_upsert_self (p : List (String × String)) (k v : String)
    (h : p.any (fun kv => kv.1 == k) = true) :
    get_progress (p.map (fun kv => if kv.1 == k then (k, v) else kv)) k = some v := by
  induction p with
  | nil => simp at h
  | cons kv rest ih =>
    simp only [List.any_cons, Bool.or_eq_true] at h
    simp only [List.map_cons]
    by_cases hk : (kv.1 == k) = true
    · simp [hk, get_progress_cons]
    · rcases h with h | h
      · exact absurd h hk
      · rw [if_neg hk]
        rw [get_progress_cons, if_neg hk]
        exact ih h

theorem get_progress_map_upsert_ne (p : List (String × String)) (k k₂ v : String)
    (hne : k ≠ k₂) :
    get_progress (p.map (fun kv => if kv.1 == k then (k, v) else kv)) k₂ =
      get_progress p k₂ := by
  induction p with
  | nil => rfl
  | cons kv rest ih =>
    simp only [List.map_cons]
    by_cases hk : (kv.1 == k) = true
    · have hkv : kv.1 = k := by simpa using hk
      rw [if_pos hk, get_progress_cons, get_progress_cons]
      rw [if_neg (by simp [hne]), if_neg (by simp [hkv, hne])]
      exact ih
    · rw [if_neg hk, get_progress_cons, get_progress_cons]
      by_cases h₄ : (kv.1 == k₂) = true
      · simp [h₄]
      · rw [if_neg h₄, if_neg h₄]
        exact ih

theorem upsertProgress_get_self (p : List (String × String)) (k v : String) :
    get_progress (upsertProgress p k v) k = some v := by
  unfold upsertProgress
  split
  · exact get_progress_map_upsert_self p k v (by assumption)
  · rename_i h
    refine get_progress_append_self p k v ?_
    cases hb : (p.any fun kv => kv.1 == k) with
    | false => rfl
    | true => exact absurd hb h

theorem upsertProgress_get_ne (p : List (String × String)) (k k₂ v : String)
    (hne : k ≠ k₂) : get_progress (upsertProgress p k v) k₂ = get_progress p k₂ := by
  unfold upsertProgress
  split
  · exact get_progress_map_upsert_ne p k k₂ v hne
  · exact get_progress_append_ne p k k₂ v hne

/-- C7: `_save_entries` is all-or-nothing — on success the table gains
exactly the given entries (in order); when any raised condition aborts the
transaction the rollback leaves the table unchanged (no partial insert is
observable); and a pre-existing identifier among the entries always fails
the whole transaction with the DuplicateKey condition. -/
theorem C7_save_entries_atomic (rows entries : List Row) :
    ((save_entries rows entries).1 = Except.ok () →
      (save_entries rows entries).2 = rows ++ entries) ∧
    (∀ e, (save_entries rows entries).1 = Except.error e →
      (save_entries rows entries).2 = rows) ∧
    ((∃ r ∈ entries, memberOfRows rows r.1 = true) →
      (save_entries rows entries).1 = Except.error "DuplicateKey") := by
  by_cases he : entries.isEmpty = true
  · have hnil : entries = [] := by cases entries <;> simp_all
    subst hnil
    simp [save_entries, transaction]
  · have hse : save_entries rows entries =
        (match executemany rows entries with
          | Except.ok db₂ => (Except.ok (), db₂)
          | Except.error s => (Except.error s, rows)) := by
      unfold save_entries transaction
      rw [if_neg he]
    cases hex : executemany rows entries with
    | ok out =>
      rw [hex] at hse
      refine ⟨fun _ => ?_, fun e h => ?_, fun hcol => ?_⟩
      · rw [hse]
        exact executemany_append rows entries out hex
      · rw [hse] at h
        simp at h
      · obtain ⟨s, hs⟩ := executemany_error_of_exists rows entries hcol
        rw [hex] at hs
        exact absurd hs (by simp)
    | error s =>
      have hdk := executemany_error_eq rows entries s hex
      subst hdk
      rw [hex] at hse
      refine ⟨fun h => ?_, fun e _ => by rw [hse], fun _ => by rw [hse]⟩
      rw [hse] at h
      simp at h

/-- Witness for C7: inserting a batch whose first entry's key `"a"` is
already present fails with DuplicateKey and leaves the table unchanged. -/
theorem C7_witness :
    (save_entries [("a", "x")] [("a", "y"), ("b", "z")]).1 = Except.error "DuplicateKey" ∧
    (save_entries [("a", "x")] [("a", "y"), ("b", "z")]).2 = [("a", "x")] := by
  have h := C7_save_entries_atomic [("a", "x")] [("a", "y"), ("b", "z")]
  have hdk := h.2.2 ⟨("a", "y"), by decide, by decide⟩
  exact ⟨hdk, h.2.1 "DuplicateKey" hdk⟩

/-- C10: calling `start()` while the scraper is already running is a no-op —
state (running/paused flags, worker count) unchanged and no events (no
spawned thread, no start log); the worker count grows only when `running`
was false beforehand. -/
theorem C10_start_noop (c : Ctl) :
    (c.running = true → start c = (c, [])) ∧
    ((start c).1.workers ≠ c.workers →
      c.running = false ∧ (start c).1.workers = c.workers + 1) := by
  unfold start
  by_cases h : c.running = true
  · simp [h]
  · have hf : c.running = false := by
      cases hr : c.running
      · rfl
      · exact absurd hr h
    simp [hf]

/-- Witness for C10: a running scraper state is left untouched by `start`. -/
theorem C10_witness :
    start { running := true, paused := false, workers := 1 } =
      ({ running := true, paused := false, workers := 1 }, []) :=
  (C10_start_noop _).1 rfl

theorem save_entries_ok_append (rows entries : List Row)
    (h : (save_entries rows entries).1 = Except.ok ()) :
    (save_entries rows entries).2 = rows ++ entries := by
  by_cases he : entries.isEmpty = true
  · have hnil : entries = [] := by cases entries <;> simp_all
    subst hnil
    simp [save_entries, transaction]
  · have hse : save_entries rows entries =
        (match executemany rows entries with
          | Except.ok db₂ => (Except.ok (), db₂)
          | Except.error s => (Except.error s, rows)) := by
      unfold save_entries transaction
      rw [if_neg he]
    cases hex : executemany rows entries with
    | ok out =>
      rw [hex] at hse
      rw [hse]
      exact executemany_append rows entries out hex
    | error s =>
      rw [hex] at hse
      rw [hse] at h
      simp at h

theorem pauseWait_of_not_paused (flags : Nat → Bool × Bool) (t fuel : Nat)
    (hfuel : 0 < fuel) (hp : (flags t).2 = false) :
    pauseWait flags t fuel = some t := by
  cases fuel with
  | zero => omega
  | succ n => simp [pauseWait, hp]

theorem collectEntries_entries (res : FetchResult) (batch : List String) :
    (collectEntries res batch).1 =
      batch.filterMap (fun id => ((lookupFetch res id).join).map (fun c => (id, c))) := by
  induction batch with
  | nil => rfl
  | cons id rest ih =>
    simp only [collectEntries, List.filterMap_cons]
    cases h : lookupFetch res id with
    | none => simpa [h, Option.join] using ih
    | some o => cases o <;> simp [h, Option.join, ih]

theorem collectEntries_events_logs (res : FetchResult) (batch : List String) :
    ∀ e ∈ (collectEntries res batch).2, ∃ m, e = Event.log m := by
  induction batch with
  | nil => simp [collectEntries]
  | cons id rest ih =>
    intro e he
    simp only [collectEntries] at he
    cases h : lookupFetch res id with
    | none =>
      rw [h] at he
      rcases List.mem_cons.mp he with rfl | hr
      · exact ⟨_, rfl⟩
      · exact ih e hr
    | some o =>
      cases o with
      | none =>
        rw [h] at he
        rcases List.mem_cons.mp he with rfl | hr
        · exact ⟨_, rfl⟩
        · exact ih e hr
      | some c =>
        rw [h] at he
        exact ih e he

theorem collectEntries_skip_log (res : FetchResult) (batch : List String) (id : String)
    (hmem : id ∈ batch) (hnull : (lookupFetch res id).join = none) :
    Event.log ("Page not found for " ++ id ++ ". Skipping.") ∈ (collectEntries res batch).2 ∨
    Event.log ("No content for " ++ id ++ ". Skipping.") ∈ (collectEntries res batch).2 := by
  induction batch with
  | nil => simp at hmem
  | cons id₂ rest ih =>
    rcases List.mem_cons.mp hmem with rfl | hr
    · cases h : lookupFetch res id with
      | none =>
        left
        simp [collectEntries, h]
      | some o =>
        cases o with
        | none =>
          right
          simp [collectEntries, h]
        | some c =>
          rw [h] at hnull
          simp [Option.join] at hnull
    · rcases ih hr with h₂ | h₂
      · left
        cases h : lookupFetch res id₂ with
        | none => simp [collectEntries, h, h₂]
        | some o => cases o <;> simp [collectEntries, h, h₂]
      · right
        cases h : lookupFetch res id₂ with
        | none => simp [collectEntries, h, h₂]
        | some o => cases o <;> simp [collectEntries, h, h₂]

theorem chunkStep_stop (oc : Oracles) (job : Job) (st : ChunkSt) (batch : List String)
    (hb : st.broke = false) (hbl : st.blocked = false)
    (hrun : (oc.flags st.t).1 = false) :
    chunkStep oc job st batch = { st with broke := true } := by
  unfold chunkStep
  simp [hb, hbl, hrun]

theorem chunkStep_error (oc : Oracles) (job : Job) (st : ChunkSt) (batch : List String)
    (e : String) (t₁ : Nat)
    (hb : st.broke = false) (hbl : st.blocked = false)
    (hrun : (oc.flags st.t).1 = true)
    (hw : pauseWait oc.flags st.t oc.pauseFuel = some t₁)
    (hf : oc.fetch batch = .error e) :
    chunkStep oc job st batch =
      { st with
        t := t₁ + 30,
        events := st.events
          ++ [.fetchBatch batch,
              .log ("Batch fetch error: " ++ e
                ++ ". Retrying individual items in 30 seconds...")]
          ++ batch.map (fun id => .errorLog id (errorClass e))
          ++ [.sleep 30] } := by
  unfold chunkStep
  simp [hb, hbl, hrun, hw, hf]

theorem chunkStep_ok_empty (oc : Oracles) (job : Job) (st : ChunkSt) (batch : List String)
    (res : FetchResult) (t₁ : Nat)
    (hb : st.broke = false) (hbl : st.blocked = false)
    (hrun : (oc.flags st.t).1 = true)
    (hw : pauseWait oc.flags st.t oc.pauseFuel = some t₁)
    (hf : oc.fetch batch = .ok res)
    (hemp : (collectEntries res batch).1.isEmpty = true) :
    chunkStep oc job st batch =
      { st with
        t := t₁ + 3,
        events := st.events ++ [.fetchBatch batch]
          ++ (collectEntries res batch).2 ++ [.sleep 3] } := by
  unfold chunkStep
  simp [hb, hbl, hrun, hw, hf, hemp]

theorem chunkStep_ok_saved (oc : Oracles) (job : Job) (st : ChunkSt) (batch : List String)
    (res : FetchResult) (t₁ : Nat) (rows₂ : List Row)
    (hb : st.broke = false) (hbl : st.blocked = false)
    (hrun : (oc.flags st.t).1 = true)
    (hw : pauseWait oc.flags st.t oc.pauseFuel = some t₁)
    (hf : oc.fetch batch = .ok res)
    (hemp : (collectEntries res batch).1.isEmpty = false)
    (hs : save_entries st.rows (collectEntries res batch).1 = (Except.ok (), rows₂)) :
    chunkStep oc job st batch =
      { st with
        rows := rows₂,
        count := st.count + (collectEntries res batch).1.length,
        progress := upsertProgress st.progress job.countKey
          (toString (st.count + (collectEntries res batch).1.length)),
        t := t₁ + 3,
        events := st.events
          ++ [.fetchBatch batch] ++ (collectEntries res batch).2
          ++ [.insertTx (collectEntries res batch).1]
          ++ statusEvents st.count job.total (collectEntries res batch).1
          ++ [.saveCount (st.count + (collectEntries res batch).1.length),
              .log ("Scraped batch of " ++ toString (collectEntries res batch).1.length
                ++ " " ++ job.itemName ++ "s. Total: "
                ++ toString (st.count + (collectEntries res batch).1.length)),
              .sleep 3] } := by
  unfold chunkStep
  simp [hb, hbl, hrun, hw, hf, hemp, hs]

theorem chunkStep_ok_save_error (oc : Oracles) (job : Job) (st : ChunkSt)
    (batch : List String) (res : FetchResult) (t₁ : Nat) (e : String) (rows₂ : List Row)
    (hb : st.broke = false) (hbl : st.blocked = false)
    (hrun : (oc.flags st.t).1 = true)
    (hw : pauseWait oc.flags st.t oc.pauseFuel = some t₁)
    (hf : oc.fetch batch = .ok res)
    (hemp : (collectEntries res batch).1.isEmpty = false)
    (hs : save_entries st.rows (collectEntries res batch).1 = (Except.error e, rows₂)) :
    chunkStep oc job st batch =
      { st with
        rows := rows₂,
        t := t₁ + 30,
        events := st.events
          ++ [.fetchBatch batch] ++ (collectEntries res batch).2
          ++ [.log ("Batch fetch error: " ++ e
              ++ ". Retrying individual items in 30 seconds...")]
          ++ batch.map (fun id => .errorLog id (errorClass e))
          ++ [.sleep 30] } := by
  unfold chunkStep
  simp [hb, hbl, hrun, hw, hf, hemp, hs]

theorem statusIdsOf_append (a b : List Event) :
    statusIdsOf (a ++ b) = statusIdsOf a ++ statusIdsOf b := by
  simp [statusIdsOf, List.filterMap_append]

theorem statusIdsOf_cons_status (c tot : Nat) (id : String) (rest : List Event) :
    statusIdsOf (Event.status c tot id :: rest) = id :: statusIdsOf rest := rfl

theorem statusIdsOf_statusEvents (base total : Nat) (entries : List Row) :
    statusIdsOf (statusEvents base total entries) = rowKeys entries := by
  induction entries generalizing base with
  | nil => rfl
  | cons r rest ih =>
    cases r with
    | mk id c =>
      rw [statusEvents, statusIdsOf_cons_status, ih (base + 1)]
      rfl

theorem statusIdsOf_skips (res : FetchResult) (batch : List String) :
    statusIdsOf (collectEntries res batch).2 = [] := by
  rw [statusIdsOf, List.filterMap_eq_nil_iff]
  intro e he
  obtain ⟨m, rfl⟩ := collectEntries_events_logs res batch e he
  rfl

theorem statusIdsOf_errorLogs (batch : List String) (c : String) :
    statusIdsOf (batch.map (fun id => Event.errorLog id c)) = [] := by
  rw [statusIdsOf, List.filterMap_eq_nil_iff]
  intro e he
  obtain ⟨id, _, rfl⟩ := List.mem_map.mp he
  rfl

theorem drop_events (pre seg : List Event) : (pre ++ seg).drop pre.length = seg :=
  List.drop_left pre seg

/-- C4 (counterexample to the claim as stated): the chunk-error handler
records every identifier of the failed chunk in the error journal without
any existence re-check — here the identifier `Rs1` is already present in the
store, the chunk fetch errors, and the error is still counted as real (an
error-journal line is written for `Rs1`). -/
theorem C4_counterexample :
    memberOfRows [("Rs1", "cached")] "Rs1" = true ∧
    Event.errorLog "Rs1" "502_ERROR" ∈
      (chunkStep
        ⟨fun _ => (true, false), fun _ => Except.error "HTTP 502 Bad Gateway",
          fun _ _ => Except.error "", 1⟩
        jobSNP
        ⟨[("Rs1", "cached")], [], 1, 0, [], false, false⟩
        ["Rs1"]).events := by decide

/-- C4 (amended): when a chunk fetch errors, the engine logs the failure,
writes one error-journal line per identifier of the chunk unconditionally
(no existence re-check is performed before counting the error as real),
backs off 30 time-units, and leaves the table, the count and the
checkpoints unchanged. -/
theorem C4_errors_logged_unconditionally (oc : Oracles) (job : Job) (st : ChunkSt)
    (batch : List String) (e : String) (t₁ : Nat)
    (hb : st.broke = false) (hbl : st.blocked = false)
    (hrun : (oc.flags st.t).1 = true)
    (hw : pauseWait oc.flags st.t oc.pauseFuel = some t₁)
    (hf : oc.fetch batch = .error e) :
    (chunkStep oc job st batch).rows = st.rows ∧
    (chunkStep oc job st batch).count = st.count ∧
    (chunkStep oc job st batch).progress = st.progress ∧
    ∀ id ∈ batch, Event.errorLog id (errorClass e) ∈ (chunkStep oc job st batch).events := by
  rw [chunkStep_error oc job st batch e t₁ hb hbl hrun hw hf]
  refine ⟨rfl, rfl, rfl, ?_⟩
  intro id hid
  refine List.mem_append_left _ (List.mem_append_right _ ?_)
  exact List.mem_map.mpr ⟨id, hid, rfl⟩

/-- Witness for C4 (amended) at a concrete failing chunk. -/
theorem C4_amended_witness :
    Event.errorLog "rs7" "BATCH_ERROR" ∈
      (chunkStep
        ⟨fun _ => (true, false), fun _ => Except.error "boom", fun _ _ => Except.error "", 1⟩
        jobSNP ⟨[], [], 0, 0, [], false, false⟩ ["rs7"]).events := by
  have h := C4_errors_logged_unconditionally
    ⟨fun _ => (true, false), fun _ => Except.error "boom", fun _ _ => Except.error "", 1⟩
    jobSNP ⟨[], [], 0, 0, [], false, false⟩ ["rs7"] "boom" 0 rfl rfl rfl rfl rfl
  have h₂ := h.2.2.2 "rs7" (by decide)
  have hc : errorClass "boom" = "BATCH_ERROR" := by decide
  rw [hc] at h₂
  exact h₂

/-- C5 (counterexample to the claim as stated): in the spec's own scenario
(page `["rs1","rs2","rs3"]`, `rs2` already stored, fetch returning content
for `rs1` and None for `rs3`), `rs3` is skipped with a log event but no
status event is emitted for it, and no status event is emitted for the
already-present `rs2` either: the only status event of the whole run names
`rs1`. -/
theorem C5_counterexample :
    statusIdsOf (outerLoop
        ⟨fun _ => (true, false),
          fun _ => Except.ok [("rs1", some "X"), ("rs3", none)],
          fun _ _ => Except.ok (["rs1", "rs2", "rs3"], none), 1⟩
        jobSNP 2 (initEngine [("rs2", "old")] [] jobSNP)).events = ["rs1"] ∧
    Event.log "No content for rs3. Skipping." ∈
      (outerLoop
        ⟨fun _ => (true, false),
          fun _ => Except.ok [("rs1", some "X"), ("rs3", none)],
          fun _ _ => Except.ok (["rs1", "rs2", "rs3"], none), 1⟩
        jobSNP 2 (initEngine [("rs2", "old")] [] jobSNP)).events := by decide

/-- C5 (amended): a status event `(count, total, identifier)` is emitted for
each successfully stored record only — one per entry of the committed
insert — and never for a skipped identifier: chunks whose save list is
empty, whose insert transaction fails, or whose fetch errors emit no status
events at all. -/
theorem C5_status_only_for_saved (oc : Oracles) (job : Job) (st : ChunkSt)
    (batch : List String) (t₁ : Nat)
    (hb : st.broke = false) (hbl : st.blocked = false)
    (hrun : (oc.flags st.t).1 = true)
    (hw : pauseWait oc.flags st.t oc.pauseFuel = some t₁) :
    (∀ res rows₂, oc.fetch batch = .ok res →
      save_entries st.rows (collectEntries res batch).1 = (Except.ok (), rows₂) →
      statusIdsOf ((chunkStep oc job st batch).events.drop st.events.length) =
        rowKeys (collectEntries res batch).1) ∧
    (∀ res e rows₂, oc.fetch batch = .ok res →
      save_entries st.rows (collectEntries res batch).1 = (Except.error e, rows₂) →
      statusIdsOf ((chunkStep oc job st batch).events.drop st.events.length) = []) ∧
    (∀ e, oc.fetch batch = .error e →
      statusIdsOf ((chunkStep oc job st batch).events.drop st.events.length) = []) := by
  refine ⟨?_, ?_, ?_⟩
  · intro res rows₂ hf hs
    by_cases hemp : (collectEntries res batch).1.isEmpty = true
    · rw [chunkStep_ok_empty oc job st batch res t₁ hb hbl hrun hw hf hemp]
      have hnil : (collectEntries res batch).1 = [] := by
        cases hc : (collectEntries res batch).1
        · rfl
        · rw [hc] at hemp
          simp at hemp
      simp only [List.append_assoc, drop_events, hnil]
      rw [statusIdsOf_append, statusIdsOf_append, statusIdsOf_skips]
      rfl
    · have hemp₂ : (collectEntries res batch).1.isEmpty = false := by
        cases hc : (collectEntries res batch).1.isEmpty
        · rfl
        · exact absurd hc hemp
      rw [chunkStep_ok_saved oc job st batch res t₁ rows₂ hb hbl hrun hw hf hemp₂ hs]
      simp only [List.append_assoc, drop_events]
      simp only [statusIdsOf_append, statusIdsOf_skips, statusIdsOf_statusEvents]
      simp [statusIdsOf]
  · intro res e rows₂ hf hs
    have hemp : (collectEntries res batch).1.isEmpty = false := by
      cases hc : (collectEntries res batch).1 with
      | nil =>
        rw [hc] at hs
        simp [save_entries] at hs
      | cons a l => rfl
    rw [chunkStep_ok_save_error oc job st batch res t₁ e rows₂ hb hbl hrun hw hf hemp hs]
    simp only [List.append_assoc, drop_events]
    simp only [statusIdsOf_append, statusIdsOf_skips, statusIdsOf_errorLogs]
    simp [statusIdsOf]
  · intro e hf
    rw [chunkStep_error oc job st batch e t₁ hb hbl hrun hw hf]
    simp only [List.append_assoc, drop_events]
    simp only [statusIdsOf_append, statusIdsOf_errorLogs]
    simp [statusIdsOf]

/-- Witness for C5 (amended) at a concrete chunk with one stored record and
one None-content skip. -/
theorem C5_amended_witness :
    statusIdsOf ((chunkStep
        ⟨fun _ => (true, false),
          fun _ => Except.ok [("rs1", some "X"), ("rs3", none)],
          fun _ _ => Except.error "", 1⟩
        jobSNP ⟨[], [], 0, 0, [], false, false⟩ ["rs1", "rs3"]).events.drop 0) = ["rs1"] := by
  have h := (C5_status_only_for_saved
    ⟨fun _ => (true, false),
      fun _ => Except.ok [("rs1", some "X"), ("rs3", none)],
      fun _ _ => Except.error "", 1⟩
    jobSNP ⟨[], [], 0, 0, [], false, false⟩ ["rs1", "rs3"] 0 rfl rfl rfl rfl).1
    [("rs1", some "X"), ("rs3", none)] [("rs1", "X")] rfl rfl
  exact h.trans rfl

/-- C6 (counterexample to the claim as stated): `pause()` is observed at
time 0, `stop()` at time 1 while still paused (flags become
running=false, paused=true).  The pause-wait loop does exit within one
poll interval without a resume — but the pending chunk is then still
processed: its network fetch **and** its store write both happen before
the stop is seen at the next chunk boundary. -/
theorem C6_counterexample :
    ((fun t => if t == 0 then ((true : Bool), (true : Bool)) else (false, true)) 1
      = (false, true)) ∧
    Event.fetchBatch ["rs1"] ∈
      (chunkStep
        ⟨fun t => if t == 0 then (true, true) else (false, true),
          fun _ => Except.ok [("rs1", some "X")], fun _ _ => Except.error "", 5⟩
        jobSNP ⟨[], [], 0, 0, [], false, false⟩ ["rs1"]).events ∧
    Event.insertTx [("rs1", "X")] ∈
      (chunkStep
        ⟨fun t => if t == 0 then (true, true) else (false, true),
          fun _ => Except.ok [("rs1", some "X")], fun _ _ => Except.error "", 5⟩
        jobSNP ⟨[], [], 0, 0, [], false, false⟩ ["rs1"]).events := by decide

/-- C6 (amended): the pause-wait loop blocks exactly while paused-and-
running — it exits only at an instant where the scraper is unpaused or
stopped, polls once per time-unit while paused, and honours a `stop()`
already visible while paused at that very poll (no `resume()` needed);
the chunk pending at the exit is however still fetched and written (see
the counterexample) before the stop is observed at the next chunk
boundary. -/
theorem C6_pauseWait_exit (flags : Nat → Bool × Bool) (t fuel u : Nat)
    (h : pauseWait flags t fuel = some u) :
    t ≤ u ∧
    ((flags u).2 = false ∨ (flags u).1 = false) ∧
    (∀ v, t ≤ v → v < u → (flags v).2 = true ∧ (flags v).1 = true) ∧
    ((flags t).2 = true → (flags t).1 = false → u = t) := by
  induction fuel generalizing t with
  | zero => simp [pauseWait] at h
  | succ n ih =>
    simp only [pauseWait] at h
    by_cases hp : (flags t).2 = true
    · rw [if_pos hp] at h
      by_cases hr : (flags t).1 = true
      · rw [if_neg (by simp [hr])] at h
        obtain ⟨h1, h2, h3, h4⟩ := ih (t + 1) h
        refine ⟨by omega, h2, ?_, ?_⟩
        · intro v hv1 hv2
          rcases Nat.eq_or_lt_of_le hv1 with rfl | hlt
          · exact ⟨hp, hr⟩
          · exact h3 v hlt hv2
        · intro _ hrf
          rw [hrf] at hr
          cases hr
      · have hrf : (flags t).1 = false := by
          cases hh : (flags t).1
          · rfl
          · exact absurd hh hr
        rw [if_pos (by simp [hrf])] at h
        injection h with h
        subst h
        exact ⟨Nat.le_refl _, Or.inr hrf,
          fun v hv1 hv2 => absurd hv2 (by omega), fun _ _ => rfl⟩
    · have hpf : (flags t).2 = false := by
        cases hh : (flags t).2
        · rfl
        · exact absurd hh hp
      rw [if_neg hp] at h
      injection h with h
      subst h
      exact ⟨Nat.le_refl _, Or.inl hpf,
        fun v hv1 hv2 => absurd hv2 (by omega), fun hpt _ => absurd hpt hp⟩

/-- Witness for C6 (amended): with pause active at times 0 and 1 and a
resume at time 2, the wait loop reports the flags paused-and-running at
time 1. -/
theorem C6_witness :
    ((fun v => if v < 2 then ((true : Bool), (true : Bool)) else (true, false)) 1).2
      = true := by
  have h := C6_pauseWait_exit
    (fun v => if v < 2 then (true, true) else (true, false)) 0 5 2 (by decide)
  exact (h.2.2.1 1 (by decide) (by decide)).1

theorem cursorSavesOf_append (a b : List Event) :
    cursorSavesOf (a ++ b) = cursorSavesOf a ++ cursorSavesOf b := by
  simp [cursorSavesOf, List.filterMap_append]

theorem cursorSavesOf_skips (res : FetchResult) (batch : List String) :
    cursorSavesOf (collectEntries res batch).2 = [] := by
  rw [cursorSavesOf, List.filterMap_eq_nil_iff]
  intro e he
  obtain ⟨m, rfl⟩ := collectEntries_events_logs res batch e he
  rfl

theorem cursorSavesOf_errorLogs (batch : List String) (c : String) :
    cursorSavesOf (batch.map (fun id => Event.errorLog id c)) = [] := by
  rw [cursorSavesOf, List.filterMap_eq_nil_iff]
  intro e he
  obtain ⟨id, _, rfl⟩ := List.mem_map.mp he
  rfl

theorem cursorSavesOf_statusEvents (base total : Nat) (entries : List Row) :
    cursorSavesOf (statusEvents base total entries) = [] := by
  induction entries generalizing base with
  | nil => rfl
  | cons r rest ih =>
    cases r with
    | mk id c => simpa [statusEvents, cursorSavesOf, List.filterMap_cons] using ih (base + 1)

/-- Exhaustive case analysis of one chunk-loop iteration, phrased through
the shape lemmas above. -/
theorem chunkStep_cases (oc : Oracles) (job : Job) (st : ChunkSt) (batch : List String) :
    (chunkStep oc job st batch = st) ∨
    (chunkStep oc job st batch = { st with broke := true }) ∨
    (chunkStep oc job st batch = { st with blocked := true }) ∨
    (∃ t₁ e, oc.fetch batch = .error e ∧
      chunkStep oc job st batch =
        { st with
          t := t₁ + 30,
          events := st.events
            ++ [.fetchBatch batch,
                .log ("Batch fetch error: " ++ e
                  ++ ". Retrying individual items in 30 seconds...")]
            ++ batch.map (fun id => .errorLog id (errorClass e))
            ++ [.sleep 30] }) ∨
    (∃ t₁ res, oc.fetch batch = .ok res ∧ (collectEntries res batch).1.isEmpty = true ∧
      chunkStep oc job st batch =
        { st with
          t := t₁ + 3,
          events := st.events ++ [.fetchBatch batch]
            ++ (collectEntries res batch).2 ++ [.sleep 3] }) ∨
    (∃ t₁ res rows₂, oc.fetch batch = .ok res ∧
      (collectEntries res batch).1.isEmpty = false ∧
      save_entries st.rows (collectEntries res batch).1 = (Except.ok (), rows₂) ∧
      chunkStep oc job st batch =
        { st with
          rows := rows₂,
          count := st.count + (collectEntries res batch).1.length,
          progress := upsertProgress st.progress job.countKey
            (toString (st.count + (collectEntries res batch).1.length)),
          t := t₁ + 3,
          events := st.events
            ++ [.fetchBatch batch] ++ (collectEntries res batch).2
            ++ [.insertTx (collectEntries res batch).1]
            ++ statusEvents st.count job.total (collectEntries res batch).1
            ++ [.saveCount (st.count + (collectEntries res batch).1.length),
                .log ("Scraped batch of " ++ toString (collectEntries res batch).1.length
                  ++ " " ++ job.itemName ++ "s. Total: "
                  ++ toString (st.count + (collectEntries res batch).1.length)),
                .sleep 3] }) ∨
    (∃ t₁ res e rows₂, oc.fetch batch = .ok res ∧
      (collectEntries res batch).1.isEmpty = false ∧
      save_entries st.rows (collectEntries res batch).1 = (Except.error e, rows₂) ∧
      chunkStep oc job st batch =
        { st with
          rows := rows₂,
          t := t₁ + 30,
          events := st.events
            ++ [.fetchBatch batch] ++ (collectEntries res batch).2
            ++ [.log ("Batch fetch error: " ++ e
                ++ ". Retrying individual items in 30 seconds...")]
            ++ batch.map (fun id => .errorLog id (errorClass e))
            ++ [.sleep 30] }) := by
  by_cases hb : st.broke = true
  · left
    unfold chunkStep
    simp [hb]
  by_cases hbl : st.blocked = true
  · left
    unfold chunkStep
    simp [hbl]
  have hb₂ : st.broke = false := by
    cases h : st.broke
    · rfl
    · exact absurd h hb
  have hbl₂ : st.blocked = false := by
    cases h : st.blocked
    · rfl
    · exact absurd h hbl
  by_cases hrun : (oc.flags st.t).1 = true
  · cases hw : pauseWait oc.flags st.t oc.pauseFuel with
    | none =>
      right; right; left
      unfold chunkStep
      simp [hb₂, hbl₂, hrun, hw]
    | some t₁ =>
      cases hf : oc.fetch batch with
      | error e =>
        right; right; right; left
        exact ⟨t₁, e, rfl, chunkStep_error oc job st batch e t₁ hb₂ hbl₂ hrun hw hf⟩
      | ok res =>
        by_cases hemp : (collectEntries res batch).1.isEmpty = true
        · right; right; right; right; left
          exact ⟨t₁, res, rfl, hemp,
            chunkStep_ok_empty oc job st batch res t₁ hb₂ hbl₂ hrun hw hf hemp⟩
        · have hemp₂ : (collectEntries res batch).1.isEmpty = false := by
            cases h : (collectEntries res batch).1.isEmpty
            · rfl
            · exact absurd h hemp
          cases hs : save_entries st.rows (collectEntries res batch).1 with
          | mk r rows₂ =>
            cases r with
            | ok u =>
              cases u
              right; right; right; right; right; left
              exact ⟨t₁, res, rows₂, rfl, hemp₂, hs,
                chunkStep_ok_saved oc job st batch res t₁ rows₂ hb₂ hbl₂ hrun hw hf hemp₂ hs⟩
            | error e =>
              right; right; right; right; right; right
              exact ⟨t₁, res, e, rows₂, rfl, hemp₂, hs,
                chunkStep_ok_save_error oc job st batch res t₁ e rows₂
                  hb₂ hbl₂ hrun hw hf hemp₂ hs⟩
  · have hrf : (oc.flags st.t).1 = false := by
      cases h : (oc.flags st.t).1
      · rfl
      · exact absurd h hrun
    right; left
    exact chunkStep_stop oc job st batch hb₂ hbl₂ hrf

theorem chunkStep_cursorSaves (oc : Oracles) (job : Job) (st : ChunkSt)
    (batch : List String) :
    cursorSavesOf (chunkStep oc job st batch).events = cursorSavesOf st.events := by
  rcases chunkStep_cases oc job st batch with h | h | h | ⟨t₁, e, hf, h⟩ |
    ⟨t₁, res, hf, hemp, h⟩ | ⟨t₁, res, rows₂, hf, hemp, hs, h⟩ |
    ⟨t₁, res, e, rows₂, hf, hemp, hs, h⟩ <;> rw [h]
  · simp only [cursorSavesOf_append, cursorSavesOf_errorLogs]
    simp [cursorSavesOf]
  · simp only [cursorSavesOf_append, cursorSavesOf_skips]
    simp [cursorSavesOf]
  · simp only [cursorSavesOf_append, cursorSavesOf_skips, cursorSavesOf_statusEvents]
    simp [cursorSavesOf]
  · simp only [cursorSavesOf_append, cursorSavesOf_skips, cursorSavesOf_errorLogs]
    simp [cursorSavesOf]

theorem runChunks_cursorSaves (oc : Oracles) (job : Job) (chunks : List (List String))
    (st : ChunkSt) :
    cursorSavesOf (runChunks oc job st chunks).events = cursorSavesOf st.events := by
  induction chunks generalizing st with
  | nil => rfl
  | cons c rest ih =>
    rw [runChunks, List.foldl_cons]
    exact (ih (chunkStep oc job st c)).trans (chunkStep_cursorSaves oc job st c)

theorem chunkStep_progress_other (oc : Oracles) (job : Job) (st : ChunkSt)
    (batch : List String) (k : String) (hk : k ≠ job.countKey) :
    get_progress (chunkStep oc job st batch).progress k = get_progress st.progress k := by
  rcases chunkStep_cases oc job st batch with h | h | h | ⟨t₁, e, hf, h⟩ |
    ⟨t₁, res, hf, hemp, h⟩ | ⟨t₁, res, rows₂, hf, hemp, hs, h⟩ |
    ⟨t₁, res, e, rows₂, hf, hemp, hs, h⟩ <;> rw [h]
  exact upsertProgress_get_ne st.progress job.countKey k _ (fun h₂ => hk h₂.symm)

theorem runChunks_progress_other (oc : Oracles) (job : Job) (chunks : List (List String))
    (st : ChunkSt) (k : String) (hk : k ≠ job.countKey) :
    get_progress (runChunks oc job st chunks).progress k = get_progress st.progress k := by
  induction chunks generalizing st with
  | nil => rfl
  | cons c rest ih =>
    rw [runChunks, List.foldl_cons]
    exact (ih (chunkStep oc job st c)).trans (chunkStep_progress_other oc job st c k hk)

/-- C1 (counterexample to the claim as stated): the page's only chunk fails
with an error (its member `rs1` is neither stored nor confirmed present —
an error-journal line is written for it), yet the pagination cursor `CUR2`
returned by the listing is still persisted to the checkpoint table. -/
theorem C1_counterexample :
    Event.errorLog "rs1" "BATCH_ERROR" ∈
      (outerLoop
        ⟨fun _ => (true, false), fun _ => Except.error "boom",
          fun _ _ => Except.ok (["rs1"], some "CUR2"), 1⟩
        jobSNP 1 (initEngine [] [] jobSNP)).events ∧
    memberOfRows
      (outerLoop
        ⟨fun _ => (true, false), fun _ => Except.error "boom",
          fun _ _ => Except.ok (["rs1"], some "CUR2"), 1⟩
        jobSNP 1 (initEngine [] [] jobSNP)).rows "rs1" = false ∧
    Event.saveCursor "CUR2" ∈
      (outerLoop
        ⟨fun _ => (true, false), fun _ => Except.error "boom",
          fun _ _ => Except.ok (["rs1"], some "CUR2"), 1⟩
        jobSNP 1 (initEngine [] [] jobSNP)).events ∧
    get_progress
      (outerLoop
        ⟨fun _ => (true, false), fun _ => Except.error "boom",
          fun _ _ => Except.ok (["rs1"], some "CUR2"), 1⟩
        jobSNP 1 (initEngine [] [] jobSNP)).progress "cmcontinue_snp" = some "CUR2" := by
  decide

/-- C1 (amended): the pagination-cursor checkpoint is written exactly once
per page, after the page's chunk loop has finished iterating (chunks that
failed or were abandoned by stop() do not prevent it), and only when the
listing returned a continuation token; chunk processing itself never writes
a cursor, and when no token is returned the cursor checkpoint is untouched.
Failed chunks are instead retried on a later pass, because their
identifiers remain absent from the store. -/
theorem C1_cursor_saved_after_page (oc : Oracles) (job : Job) (st : EngineSt)
    (members : List String) (nc : Option String)
    (hk : job.countKey ≠ job.continueKey)
    (hnb : (runChunks oc job (pageStart job st members) (pageChunks job st members)).blocked
      = false) :
    (∀ c, nc = some c →
      (processPage oc job st members nc).events =
        (runChunks oc job (pageStart job st members) (pageChunks job st members)).events
          ++ [.saveCursor c, .sleep 2] ∧
      get_progress (processPage oc job st members nc).progress job.continueKey = some c) ∧
    (nc = none →
      cursorSavesOf (processPage oc job st members nc).events = cursorSavesOf st.events ∧
      get_progress (processPage oc job st members nc).progress job.continueKey =
        get_progress st.progress job.continueKey) ∧
    cursorSavesOf
      (runChunks oc job (pageStart job st members) (pageChunks job st members)).events =
      cursorSavesOf st.events := by
  have hps : cursorSavesOf (pageStart job st members).events = cursorSavesOf st.events := by
    unfold pageStart
    simp only [cursorSavesOf_append]
    split <;> simp [cursorSavesOf]
  have hrc := (runChunks_cursorSaves oc job (pageChunks job st members)
    (pageStart job st members)).trans hps
  have hpp : get_progress
      (runChunks oc job (pageStart job st members) (pageChunks job st members)).progress
      job.continueKey = get_progress st.progress job.continueKey := by
    have := runChunks_progress_other oc job (pageChunks job st members)
      (pageStart job st members) job.continueKey (fun h => hk h.symm)
    exact this
  refine ⟨?_, ?_, hrc⟩
  · intro c hc
    subst hc
    unfold processPage
    rw [if_neg (by simp [hnb])]
    exact ⟨rfl, upsertProgress_get_self _ _ _⟩
  · intro hc
    subst hc
    unfold processPage
    rw [if_neg (by simp [hnb])]
    constructor
    · simp only [cursorSavesOf_append]
      rw [hrc]
      simp [cursorSavesOf]
    · exact hpp

/-- Witness for C1 (amended): an empty page with continuation token `"K"`
leaves the cursor checkpoint holding `"K"`. -/
theorem C1_amended_witness :
    get_progress
      (processPage
        ⟨fun _ => (true, false), fun _ => Except.ok [], fun _ _ => Except.error "", 1⟩
        jobSNP (initEngine [] [] jobSNP) [] (some "K")).progress "cmcontinue_snp" =
      some "K" := by
  have h := C1_cursor_saved_after_page
    ⟨fun _ => (true, false), fun _ => Except.ok [], fun _ _ => Except.error "", 1⟩
    jobSNP (initEngine [] [] jobSNP) [] (some "K") (by decide) rfl
  exact (h.1 "K" rfl).2

theorem digitChar_toNat_sub (d : Nat) (hd : d < 10) :
    (Nat.digitChar d).toNat - '0'.toNat = d := by
  interval_cases d <;> rfl

theorem parseCountGo_cons (c : Char) (cs : List Char) (a : Nat) :
    parseCountGo (c :: cs) a = parseCountGo cs (a * 10 + (c.toNat - '0'.toNat)) := rfl

theorem parseCountGo_toDigitsCore (fuel : Nat) :
    ∀ n a ds, n < fuel →
      ∃ k, parseCountGo (Nat.toDigitsCore 10 fuel n ds) a =
        parseCountGo ds (a * 10 ^ k + n) := by
  induction fuel with
  | zero =>
    intro n a ds h
    omega
  | succ f ih =>
    intro n a ds h
    simp only [Nat.toDigitsCore]
    by_cases h10 : n / 10 = 0
    · rw [if_pos h10]
      refine ⟨1, ?_⟩
      rw [parseCountGo_cons, digitChar_toNat_sub (n % 10) (by omega)]
      have hn : n % 10 = n := by omega
      rw [hn, pow_one]
    · rw [if_neg h10]
      have hlt : n / 10 < f := by omega
      obtain ⟨k, hk⟩ := ih (n / 10) a (Nat.digitChar (n % 10) :: ds) hlt
      refine ⟨k + 1, ?_⟩
      rw [hk, parseCountGo_cons, digitChar_toNat_sub (n % 10) (by omega)]
      congr 1
      have hdm : 10 * (n / 10) + n % 10 = n := Nat.div_add_mod n 10
      have h2 : (a * 10 ^ k + n / 10) * 10 + n % 10 =
          a * (10 ^ k * 10) + (10 * (n / 10) + n % 10) := by ring
      rw [pow_succ, h2, hdm]

theorem toDigitsCore_eq_nil (fuel : Nat) :
    ∀ (n : Nat) (ds : List Char),
      Nat.toDigitsCore 10 fuel n ds = [] → fuel = 0 ∧ ds = [] := by
  induction fuel with
  | zero => exact fun n ds h => ⟨rfl, h⟩
  | succ f ih =>
    intro n ds h
    simp only [Nat.toDigitsCore] at h
    by_cases h10 : n / 10 = 0
    · rw [if_pos h10] at h
      exact absurd h (by simp)
    · rw [if_neg h10] at h
      obtain ⟨_, hds⟩ := ih (n / 10) _ h
      exact absurd hds (by simp)

theorem parseCount_toString (m : Nat) : parseCount (toString m) = m := by
  obtain ⟨k, hk⟩ := parseCountGo_toDigitsCore (m + 1) m 0 [] (Nat.lt_succ_self m)
  have hpc : parseCount (toString m) =
      parseCountGo (Nat.toDigitsCore 10 (m + 1) m []) 0 := rfl
  rw [hpc, hk]
  simp [parseCountGo]

theorem toString_nat_data_ne_empty (m : Nat) :
    (toString m : String).data.isEmpty = false := by
  have hd : (toString m : String).data = Nat.toDigitsCore 10 (m + 1) m [] := rfl
  rw [hd]
  cases hc : Nat.toDigitsCore 10 (m + 1) m [] with
  | nil =>
    obtain ⟨hf, _⟩ := toDigitsCore_eq_nil (m + 1) m [] hc
    omega
  | cons a l => rfl

theorem rehydrateCount_toString (p : List (String × String)) (k : String) (m : Nat)
    (h : get_progress p k = some (toString m)) :
    rehydrateCount p k = m := by
  unfold rehydrateCount
  rw [h]
  simp only [toString_nat_data_ne_empty m, Bool.false_eq_true, if_false]
  exact parseCount_toString m

theorem rowKeys_collectEntries (res : FetchResult) (batch : List String) :
    rowKeys (collectEntries res batch).1 =
      batch.filter (fun id => ((lookupFetch res id).join).isSome) := by
  induction batch with
  | nil => rfl
  | cons id rest ih =>
    simp only [collectEntries, List.filter_cons]
    cases h : lookupFetch res id with
    | none => simpa [h, Option.join] using ih
    | some o =>
      cases o with
      | none => simpa [h, Option.join] using ih
      | some c =>
        simp only [h, Option.join, rowKeys, List.map_cons]
        simp only [rowKeys] at ih
        simp [ih]

/-- C9: a missing key in the batch-content result and a key mapped to None
are handled identically — the entry list committed to the store is exactly
the batch's identifiers that carry non-null content (in batch order), every
null identifier is excluded from it and gets a skip log, and a successful
insert adds exactly those non-null entries to the table. -/
theorem C9_null_content_skipped (res : FetchResult) (batch : List String)
    (rows : List Row) :
    (collectEntries res batch).1 =
      batch.filterMap (fun id => ((lookupFetch res id).join).map (fun c => (id, c))) ∧
    (∀ id ∈ batch, (lookupFetch res id).join = none →
      id ∉ rowKeys (collectEntries res batch).1 ∧
      (Event.log ("Page not found for " ++ id ++ ". Skipping.")
          ∈ (collectEntries res batch).2 ∨
       Event.log ("No content for " ++ id ++ ". Skipping.")
          ∈ (collectEntries res batch).2)) ∧
    ((save_entries rows (collectEntries res batch).1).1 = Except.ok () →
      (save_entries rows (collectEntries res batch).1).2 =
        rows ++ (collectEntries res batch).1) := by
  refine ⟨collectEntries_entries res batch, ?_, ?_⟩
  · intro id hid hnull
    refine ⟨?_, collectEntries_skip_log res batch id hid hnull⟩
    rw [rowKeys_collectEntries]
    intro hmem
    have := (List.mem_filter.mp hmem).2
    rw [hnull] at this
    simp at this
  · intro h
    exact save_entries_ok_append rows (collectEntries res batch).1 h

/-- Witness for C9 at the spec's scenario: `rs2` missing from the result and
`rs3` mapped to None are both skipped and excluded from the insert; only
`rs1` with content is committed. -/
theorem C9_witness :
    (collectEntries [("rs1", some "X"), ("rs3", none)] ["rs1", "rs2", "rs3"]).1
      = [("rs1", "X")] ∧
    "rs2" ∉ rowKeys
      (collectEntries [("rs1", some "X"), ("rs3", none)] ["rs1", "rs2", "rs3"]).1 ∧
    "rs3" ∉ rowKeys
      (collectEntries [("rs1", some "X"), ("rs3", none)] ["rs1", "rs2", "rs3"]).1 ∧
    (save_entries [] (collectEntries [("rs1", some "X"), ("rs3", none)]
        ["rs1", "rs2", "rs3"]).1).2 = [("rs1", "X")] := by
  have h := C9_null_content_skipped [("rs1", some "X"), ("rs3", none)]
    ["rs1", "rs2", "rs3"] []
  refine ⟨h.1.trans (by decide), (h.2.1 "rs2" (by decide) (by decide)).1,
    (h.2.1 "rs3" (by decide) (by decide)).1, ?_⟩
  have h₂ := h.2.2 rfl
  exact h₂.trans (by decide)

theorem chunksOfFuel_flatten (n : Nat) (hn : 0 < n) :
    ∀ (fuel : Nat) (xs : List α), xs.length ≤ fuel →
      (chunksOfFuel n fuel xs).flatten = xs := by
  intro fuel
  induction fuel with
  | zero =>
    intro xs h
    cases xs with
    | nil => rfl
    | cons x rest => simp at h
  | succ f ih =>
    intro xs h
    cases xs with
    | nil => rfl
    | cons x rest =>
      rw [chunksOfFuel, if_neg (by omega)]
      rw [List.flatten_cons]
      rw [ih ((x :: rest).drop n) (by simp [List.length_drop] at h ⊢; omega)]
      exact List.take_append_drop n (x :: rest)

theorem chunksOf_flatten (n : Nat) (hn : 0 < n) (xs : List α) :
    (chunksOf n xs).flatten = xs :=
  chunksOfFuel_flatten n hn xs.length xs (Nat.le_refl _)

theorem fetchesOf_append (a b : List Event) :
    fetchesOf (a ++ b) = fetchesOf a ++ fetchesOf b := by
  simp [fetchesOf, List.filterMap_append]

theorem fetchesOf_skips (res : FetchResult) (batch : List String) :
    fetchesOf (collectEntries res batch).2 = [] := by
  rw [fetchesOf, List.filterMap_eq_nil_iff]
  intro e he
  obtain ⟨m, rfl⟩ := collectEntries_events_logs res batch e he
  rfl

theorem fetchesOf_errorLogs (batch : List String) (c : String) :
    fetchesOf (batch.map (fun id => Event.errorLog id c)) = [] := by
  rw [fetchesOf, List.filterMap_eq_nil_iff]
  intro e he
  obtain ⟨id, _, rfl⟩ := List.mem_map.mp he
  rfl

theorem fetchesOf_statusEvents (base total : Nat) (entries : List Row) :
    fetchesOf (statusEvents base total entries) = [] := by
  induction entries generalizing base with
  | nil => rfl
  | cons r rest ih =>
    cases r with
    | mk id c => simpa [statusEvents, fetchesOf, List.filterMap_cons] using ih (base + 1)

theorem existsQueriesOf_append (a b : List Event) :
    existsQueriesOf (a ++ b) = existsQueriesOf a ++ existsQueriesOf b := by
  simp [existsQueriesOf, List.filterMap_append]

theorem existsQueriesOf_skips (res : FetchResult) (batch : List String) :
    existsQueriesOf (collectEntries res batch).2 = [] := by
  rw [existsQueriesOf, List.filterMap_eq_nil_iff]
  intro e he
  obtain ⟨m, rfl⟩ := collectEntries_events_logs res batch e he
  rfl

theorem existsQueriesOf_errorLogs (batch : List String) (c : String) :
    existsQueriesOf (batch.map (fun id => Event.errorLog id c)) = [] := by
  rw [existsQueriesOf, List.filterMap_eq_nil_iff]
  intro e he
  obtain ⟨id, _, rfl⟩ := List.mem_map.mp he
  rfl

theorem existsQueriesOf_statusEvents (base total : Nat) (entries : List Row) :
    existsQueriesOf (statusEvents base total entries) = [] := by
  induction entries generalizing base with
  | nil => rfl
  | cons r rest ih =>
    cases r with
    | mk id c =>
      simpa [statusEvents, existsQueriesOf, List.filterMap_cons] using ih (base + 1)

theorem chunkStep_existsQueries (oc : Oracles) (job : Job) (st : ChunkSt)
    (batch : List String) :
    existsQueriesOf (chunkStep oc job st batch).events = existsQueriesOf st.events := by
  rcases chunkStep_cases oc job st batch with h | h | h | ⟨t₁, e, hf, h⟩ |
    ⟨t₁, res, hf, hemp, h⟩ | ⟨t₁, res, rows₂, hf, hemp, hs, h⟩ |
    ⟨t₁, res, e, rows₂, hf, hemp, hs, h⟩ <;> rw [h]
  · simp only [existsQueriesOf_append, existsQueriesOf_errorLogs]
    simp [existsQueriesOf]
  · simp only [existsQueriesOf_append, existsQueriesOf_skips]
    simp [existsQueriesOf]
  · simp only [existsQueriesOf_append, existsQueriesOf_skips, existsQueriesOf_statusEvents]
    simp [existsQueriesOf]
  · simp only [existsQueriesOf_append, existsQueriesOf_skips, existsQueriesOf_errorLogs]
    simp [existsQueriesOf]

theorem runChunks_existsQueries (oc : Oracles) (job : Job) (chunks : List (List String))
    (st : ChunkSt) :
    existsQueriesOf (runChunks oc job st chunks).events = existsQueriesOf st.events := by
  induction chunks generalizing st with
  | nil => rfl
  | cons c rest ih =>
    rw [runChunks, List.foldl_cons]
    exact (ih (chunkStep oc job st c)).trans (chunkStep_existsQueries oc job st c)

theorem exists_tail₂ (a x y : List α) : ∃ t, (a ++ x) ++ y = a ++ t :=
  ⟨x ++ y, by simp⟩

theorem exists_tail₃ (a x y z : List α) : ∃ t, ((a ++ x) ++ y) ++ z = a ++ t :=
  ⟨x ++ y ++ z, by simp⟩

theorem exists_tail₅ (a x y z w v : List α) :
    ∃ t, ((((a ++ x) ++ y) ++ z) ++ w) ++ v = a ++ t :=
  ⟨x ++ y ++ z ++ w ++ v, by simp⟩

theorem runChunks_nil (oc : Oracles) (job : Job) (st : ChunkSt) :
    runChunks oc job st [] = st := rfl

theorem runChunks_cons (oc : Oracles) (job : Job) (st : ChunkSt) (c : List String)
    (rest : List (List String)) :
    runChunks oc job st (c :: rest) = runChunks oc job (chunkStep oc job st c) rest := rfl

theorem chunkStep_events_extend (oc : Oracles) (job : Job) (st : ChunkSt)
    (batch : List String) :
    ∃ tail, (chunkStep oc job st batch).events = st.events ++ tail := by
  rcases chunkStep_cases oc job st batch with h | h | h | ⟨t₁, e, hf, h⟩ |
    ⟨t₁, res, hf, hemp, h⟩ | ⟨t₁, res, rows₂, hf, hemp, hs, h⟩ |
    ⟨t₁, res, e, rows₂, hf, hemp, hs, h⟩ <;> rw [h]
  · exact ⟨[], (List.append_nil _).symm⟩
  · exact ⟨[], (List.append_nil _).symm⟩
  · exact ⟨[], (List.append_nil _).symm⟩
  · exact exists_tail₃ _ _ _ _
  · exact exists_tail₃ _ _ _ _
  · exact exists_tail₅ _ _ _ _ _ _
  · exact exists_tail₅ _ _ _ _ _ _

theorem runChunks_events_extend (oc : Oracles) (job : Job) (chunks : List (List String))
    (st : ChunkSt) :
    ∃ tail, (runChunks oc job st chunks).events = st.events ++ tail := by
  induction chunks generalizing st with
  | nil => exact ⟨[], (List.append_nil _).symm⟩
  | cons c rest ih =>
    rw [runChunks_cons]
    obtain ⟨t₁, h₁⟩ := chunkStep_events_extend oc job st c
    obtain ⟨t₂, h₂⟩ := ih (chunkStep oc job st c)
    exact ⟨t₁ ++ t₂, by rw [h₂, h₁, List.append_assoc]⟩

theorem processPage_events_extend (oc : Oracles) (job : Job) (st : EngineSt)
    (members : List String) (nc : Option String) :
    ∃ tail, (processPage oc job st members nc).events = st.events ++ tail := by
  have hps : ∃ tail, (pageStart job st members).events = st.events ++ tail := by
    unfold pageStart
    exact exists_tail₂ _ _ _
  obtain ⟨t₁, h₁⟩ := hps
  obtain ⟨t₂, h₂⟩ := runChunks_events_extend oc job (pageChunks job st members)
    (pageStart job st members)
  by_cases hbl : (runChunks oc job (pageStart job st members)
      (pageChunks job st members)).blocked = true
  · unfold processPage
    rw [if_pos hbl]
    exact ⟨t₁ ++ t₂, by rw [h₂, h₁, List.append_assoc]⟩
  · unfold processPage
    rw [if_neg hbl]
    cases nc with
    | some c =>
      exact ⟨t₁ ++ t₂ ++ [.saveCursor c, .sleep 2],
        by rw [h₂, h₁]; simp [List.append_assoc]⟩
    | none =>
      exact ⟨t₁ ++ t₂ ++ [.log ("Scraping complete: Reached end of "
          ++ job.itemName ++ " list.")],
        by rw [h₂, h₁]; simp [List.append_assoc]⟩

theorem memberOfRows_iff (rows : List Row) (id : String) :
    memberOfRows rows id = true ↔ id ∈ rowKeys rows := by
  simp [memberOfRows, rowKeys, List.any_eq_true, List.mem_map, beq_iff_eq]

theorem chunkStep_run_fetches (oc : Oracles) (job : Job) (st : ChunkSt)
    (batch : List String)
    (hflags : ∀ u, oc.flags u = (true, false)) (hfuel : 0 < oc.pauseFuel)
    (hb : st.broke = false) (hbl : st.blocked = false) :
    fetchesOf (chunkStep oc job st batch).events = fetchesOf st.events ++ [batch] ∧
    (chunkStep oc job st batch).broke = false ∧
    (chunkStep oc job st batch).blocked = false := by
  have hrun : (oc.flags st.t).1 = true := by rw [hflags]
  have hp : (oc.flags st.t).2 = false := by rw [hflags]
  have hw := pauseWait_of_not_paused oc.flags st.t oc.pauseFuel hfuel hp
  cases hf : oc.fetch batch with
  | error e =>
    rw [chunkStep_error oc job st batch e st.t hb hbl hrun hw hf]
    refine ⟨?_, hb, hbl⟩
    simp only [fetchesOf_append, fetchesOf_errorLogs]
    simp [fetchesOf]
  | ok res =>
    by_cases hemp : (collectEntries res batch).1.isEmpty = true
    · rw [chunkStep_ok_empty oc job st batch res st.t hb hbl hrun hw hf hemp]
      refine ⟨?_, hb, hbl⟩
      simp only [fetchesOf_append, fetchesOf_skips]
      simp [fetchesOf]
    · have hemp₂ : (collectEntries res batch).1.isEmpty = false := by
        cases h : (collectEntries res batch).1.isEmpty
        · rfl
        · exact absurd h hemp
      cases hs : save_entries st.rows (collectEntries res batch).1 with
      | mk r rows₂ =>
        cases r with
        | ok u =>
          cases u
          rw [chunkStep_ok_saved oc job st batch res st.t rows₂ hb hbl hrun hw hf hemp₂ hs]
          refine ⟨?_, hb, hbl⟩
          simp only [fetchesOf_append, fetchesOf_skips, fetchesOf_statusEvents]
          simp [fetchesOf]
        | error e =>
          rw [chunkStep_ok_save_error oc job st batch res st.t e rows₂
            hb hbl hrun hw hf hemp₂ hs]
          refine ⟨?_, hb, hbl⟩
          simp only [fetchesOf_append, fetchesOf_skips, fetchesOf_errorLogs]
          simp [fetchesOf]

theorem runChunks_run_fetches (oc : Oracles) (job : Job)
    (hflags : ∀ u, oc.flags u = (true, false)) (hfuel : 0 < oc.pauseFuel) :
    ∀ (chunks : List (List String)) (st : ChunkSt),
      st.broke = false → st.blocked = false →
      fetchesOf (runChunks oc job st chunks).events = fetchesOf st.events ++ chunks ∧
      (runChunks oc job st chunks).broke = false ∧
      (runChunks oc job st chunks).blocked = false := by
  intro chunks
  induction chunks with
  | nil =>
    intro st hb hbl
    exact ⟨by simp [runChunks_nil], hb, hbl⟩
  | cons c rest ih =>
    intro st hb hbl
    rw [runChunks_cons]
    obtain ⟨h1, h2, h3⟩ := chunkStep_run_fetches oc job st c hflags hfuel hb hbl
    obtain ⟨h4, h5, h6⟩ := ih (chunkStep oc job st c) h2 h3
    refine ⟨?_, h5, h6⟩
    rw [h4, h1]
    simp

theorem batch_check_exists_length (rows : List Row) (all : List String)
    (hnodup : all.Nodup) :
    (identifiersToFetch all (batch_check_exists rows all)).length
      + (batch_check_exists rows all).length = all.length := by
  have hElen : (all.filter
      (fun i => (batch_check_exists rows all).contains i)).length
      = (batch_check_exists rows all).length := by
    have hEnodup : (batch_check_exists rows all).Nodup := List.nodup_dedup _
    have hfil : (all.filter
        (fun i => (batch_check_exists rows all).contains i)).Nodup := hnodup.filter _
    have hperm : List.Perm
        (all.filter (fun i => (batch_check_exists rows all).contains i))
        (batch_check_exists rows all) := by
      refine (List.perm_ext_iff_of_nodup hfil hEnodup).mpr ?_
      intro a
      simp only [List.mem_filter]
      constructor
      · rintro ⟨_, hc⟩
        simpa using hc
      · intro haE
        refine ⟨?_, by simpa using haE⟩
        have h₂ : a ∈ (rowKeys rows).filter (fun k => all.contains k) :=
          List.mem_dedup.mp haE
        have h₃ := (List.mem_filter.mp h₂).2
        simpa using h₃
    exact hperm.length_eq
  have hsplit := @List.length_eq_length_filter_add _ all
    (fun i => (batch_check_exists rows all).contains i)
  simp only [identifiersToFetch]
  omega

theorem identifiersToFetch_not_in_store (rows : List Row) (all : List String) :
    ∀ id ∈ identifiersToFetch all (batch_check_exists rows all),
      memberOfRows rows id = false := by
  intro id hid
  simp only [identifiersToFetch, List.mem_filter] at hid
  obtain ⟨hall, hnc⟩ := hid
  cases hm : memberOfRows rows id
  · rfl
  · exfalso
    have hkey : id ∈ rowKeys rows := (memberOfRows_iff rows id).mp hm
    have hmem : id ∈ batch_check_exists rows all := by
      simp only [batch_check_exists]
      rw [List.mem_dedup]
      exact List.mem_filter.mpr ⟨hkey, by simpa using hall⟩
    have hcon : (batch_check_exists rows all).contains id = true := by simpa using hmem
    rw [hcon] at hnc
    simp at hnc

/-- C2: for every listed page, after a single bulk existence query over the
whole (normalized) page, the batch content fetches issued cover exactly the
absent identifiers — their concatenation across chunks is precisely the
page's identifiers minus those already stored (N − M of them when the page
has no duplicates), and no already-stored identifier is ever passed to a
content fetch. -/
theorem C2_dedup_before_fetch (oc : Oracles) (job : Job) (st : EngineSt)
    (members : List String) (nc : Option String)
    (hflags : ∀ u, oc.flags u = (true, false))
    (hfuel : 0 < oc.pauseFuel)
    (hbs : 0 < job.batchSize)
    (hnodup : (members.map normalizeTitle).Nodup) :
    (fetchesOf ((processPage oc job st members nc).events.drop
        st.events.length)).flatten
      = identifiersToFetch (members.map normalizeTitle)
          (batch_check_exists st.rows (members.map normalizeTitle)) ∧
    existsQueriesOf ((processPage oc job st members nc).events.drop st.events.length)
      = [members.map normalizeTitle] ∧
    (identifiersToFetch (members.map normalizeTitle)
        (batch_check_exists st.rows (members.map normalizeTitle))).length
      + (batch_check_exists st.rows (members.map normalizeTitle)).length
      = (members.map normalizeTitle).length ∧
    (∀ id ∈ identifiersToFetch (members.map normalizeTitle)
        (batch_check_exists st.rows (members.map normalizeTitle)),
      memberOfRows st.rows id = false) := by
  obtain ⟨tail, htail⟩ := processPage_events_extend oc job st members nc
  have hdrop : (processPage oc job st members nc).events.drop st.events.length
      = tail := by
    rw [htail]
    exact drop_events _ _
  have hpsf : fetchesOf (pageStart job st members).events = fetchesOf st.events := by
    unfold pageStart
    simp only [fetchesOf_append]
    split <;> simp [fetchesOf]
  have hpse : existsQueriesOf (pageStart job st members).events
      = existsQueriesOf st.events ++ [members.map normalizeTitle] := by
    unfold pageStart
    simp only [existsQueriesOf_append]
    split <;> simp [existsQueriesOf]
  have hpsb : (pageStart job st members).broke = false := rfl
  have hpsbl : (pageStart job st members).blocked = false := rfl
  obtain ⟨hcf, hcb, hcbl⟩ := runChunks_run_fetches oc job hflags hfuel
    (pageChunks job st members) (pageStart job st members) hpsb hpsbl
  have hfull : fetchesOf (processPage oc job st members nc).events
      = fetchesOf st.events ++ pageChunks job st members := by
    unfold processPage
    rw [if_neg (by simp [hcbl])]
    cases nc with
    | some c =>
      simp only [fetchesOf_append, hcf, hpsf]
      simp [fetchesOf]
    | none =>
      simp only [fetchesOf_append, hcf, hpsf]
      simp [fetchesOf]
  have hfullq : existsQueriesOf (processPage oc job st members nc).events
      = existsQueriesOf st.events ++ [members.map normalizeTitle] := by
    have hrq := runChunks_existsQueries oc job (pageChunks job st members)
      (pageStart job st members)
    unfold processPage
    rw [if_neg (by simp [hcbl])]
    cases nc with
    | some c =>
      simp only [existsQueriesOf_append, hrq, hpse]
      simp [existsQueriesOf]
    | none =>
      simp only [existsQueriesOf_append, hrq, hpse]
      simp [existsQueriesOf]
  have hftail : fetchesOf tail = pageChunks job st members := by
    have h₂ := hfull
    rw [htail, fetchesOf_append] at h₂
    exact List.append_cancel_left h₂
  have hqtail : existsQueriesOf tail = [members.map normalizeTitle] := by
    have h₂ := hfullq
    rw [htail, existsQueriesOf_append] at h₂
    exact List.append_cancel_left h₂
  refine ⟨?_, ?_, batch_check_exists_length st.rows _ hnodup,
    identifiersToFetch_not_in_store st.rows _⟩
  · rw [hdrop, hftail]
    unfold pageChunks
    exact chunksOf_flatten job.batchSize hbs _
  · rw [hdrop, hqtail]

/-- Witness for C2 at the spec's scenario: page `["rs1","rs2","rs3"]` with
`rs2` already stored — the chunk fetches cover exactly `["rs1","rs3"]`. -/
theorem C2_witness :
    (fetchesOf ((processPage
        ⟨fun _ => (true, false), fun _ => Except.ok [("rs1", some "X"), ("rs3", none)],
          fun _ _ => Except.error "", 1⟩
        jobSNP (initEngine [("rs2", "old")] [] jobSNP)
        ["rs1", "rs2", "rs3"] none).events.drop
          (initEngine [("rs2", "old")] [] jobSNP).events.length)).flatten
      = ["rs1", "rs3"] := by
  have h := C2_dedup_before_fetch
    ⟨fun _ => (true, false), fun _ => Except.ok [("rs1", some "X"), ("rs3", none)],
      fun _ _ => Except.error "", 1⟩
    jobSNP (initEngine [("rs2", "old")] [] jobSNP) ["rs1", "rs2", "rs3"] none
    (fun _ => rfl) (by decide) (by decide) (by decide)
  exact h.1.trans (by decide)

theorem outerStep_listing_error (oc : Oracles) (job : Job) (st : EngineSt) (e : String)
    (hd : st.done = false) (hbl : st.blocked = false)
    (hrun : (oc.flags st.t).1 = true) (hp : (oc.flags st.t).2 = false)
    (hl : oc.listing st.calls st.cursor = .error e) :
    outerStep oc job st =
      { st with
        calls := st.calls + 1, t := st.t + 30,
        events := st.events
          ++ [.listMembers st.cursor,
              .log ("Error: " ++ e ++ ". Retrying in 30 seconds..."),
              .sleep 30] } := by
  unfold outerStep
  simp [hd, hbl, hrun, hp, hl]

theorem outerStep_events_extend (oc : Oracles) (job : Job) (st : EngineSt) :
    ∃ tail, (outerStep oc job st).events = st.events ++ tail := by
  unfold outerStep
  by_cases h1 : (st.done || st.blocked) = true
  · rw [if_pos h1]
    exact ⟨[], (List.append_nil _).symm⟩
  · rw [if_neg h1]
    by_cases h2 : (!(oc.flags st.t).1) = true
    · rw [if_pos h2]
      exact ⟨[], (List.append_nil _).symm⟩
    · rw [if_neg h2]
      by_cases h3 : (oc.flags st.t).2 = true
      · rw [if_pos h3]
        exact ⟨[.sleep 1], rfl⟩
      · rw [if_neg h3]
        cases hl : oc.listing st.calls st.cursor with
        | error e => exact ⟨_, rfl⟩
        | ok p =>
          cases p with
          | mk mem nc₂ =>
            obtain ⟨t₂, h₂⟩ := processPage_events_extend oc job
              { st with
                calls := st.calls + 1,
                events := st.events ++ [.listMembers st.cursor] } mem nc₂
            exact ⟨[.listMembers st.cursor] ++ t₂, by rw [h₂]; simp⟩

theorem outerLoop_succ_run (oc : Oracles) (job : Job) (m : Nat) (st : EngineSt)
    (hd : st.done = false) (hbl : st.blocked = false) :
    outerLoop oc job (m + 1) st = outerLoop oc job m (outerStep oc job st) := by
  rw [outerLoop]
  simp [hd, hbl]

theorem outerLoop_events_extend (oc : Oracles) (job : Job) :
    ∀ (n : Nat) (st : EngineSt),
      ∃ tail, (outerLoop oc job n st).events = st.events ++ tail := by
  intro n
  induction n with
  | zero =>
    intro st
    exact ⟨[], (List.append_nil _).symm⟩
  | succ m ih =>
    intro st
    rw [outerLoop]
    by_cases h : (st.done || st.blocked) = true
    · rw [if_pos h]
      exact ⟨[], (List.append_nil _).symm⟩
    · rw [if_neg h]
      obtain ⟨t₁, h₁⟩ := outerStep_events_extend oc job st
      obtain ⟨t₂, h₂⟩ := ih (outerStep oc job st)
      exact ⟨t₁ ++ t₂, by rw [h₂, h₁, List.append_assoc]⟩

theorem outerLoop_events_mono (oc : Oracles) (job : Job) (n : Nat) (st : EngineSt)
    (e : Event) (he : e ∈ st.events) : e ∈ (outerLoop oc job n st).events := by
  obtain ⟨t, ht⟩ := outerLoop_events_extend oc job n st
  rw [ht]
  exact List.mem_append_left _ he

/-- C8: while the engine stays running and un-paused, a failing listing call
is logged, backed off 30 time-units and retried with the very same cursor,
indefinitely — over any number `n` of consecutive failures the cursor,
table and checkpoints are untouched, the loop is still live, one listing
request was issued per iteration (every one carrying the original cursor),
the clock advanced exactly 30 units per failure, and each failure `k`
produced its retry log line. -/
theorem C8_listing_retry (oc : Oracles) (job : Job) (msgs : Nat → String)
    (hflags : ∀ u, oc.flags u = (true, false))
    (herr : ∀ k c, oc.listing k c = .error (msgs k)) :
    ∀ (n : Nat) (st : EngineSt), st.done = false → st.blocked = false →
      (outerLoop oc job n st).cursor = st.cursor ∧
      (outerLoop oc job n st).rows = st.rows ∧
      (outerLoop oc job n st).progress = st.progress ∧
      (outerLoop oc job n st).done = false ∧
      (outerLoop oc job n st).calls = st.calls + n ∧
      (outerLoop oc job n st).t = st.t + 30 * n ∧
      (∀ c, Event.listMembers c ∈ (outerLoop oc job n st).events →
        Event.listMembers c ∈ st.events ∨ c = st.cursor) ∧
      (∀ k, st.calls ≤ k → k < st.calls + n →
        Event.log ("Error: " ++ msgs k ++ ". Retrying in 30 seconds...")
          ∈ (outerLoop oc job n st).events) := by
  intro n
  induction n with
  | zero =>
    intro st hd hbl
    refine ⟨rfl, rfl, rfl, hd, by show st.calls = st.calls + 0; omega,
      by show st.t = st.t + 30 * 0; omega, fun c hc => Or.inl hc, ?_⟩
    intro k hk1 hk2
    omega
  | succ m ih =>
    intro st hd hbl
    have hrun : (oc.flags st.t).1 = true := by rw [hflags]
    have hp : (oc.flags st.t).2 = false := by rw [hflags]
    have hstep := outerStep_listing_error oc job st (msgs st.calls) hd hbl hrun hp
      (herr st.calls st.cursor)
    rw [outerLoop_succ_run oc job m st hd hbl, hstep]
    obtain ⟨h1, h2, h3, h4, h5, h6, h7, h8⟩ :=
      ih { st with
        calls := st.calls + 1, t := st.t + 30,
        events := st.events
          ++ [.listMembers st.cursor,
              .log ("Error: " ++ msgs st.calls ++ ". Retrying in 30 seconds..."),
              .sleep 30] } hd hbl
    refine ⟨h1.trans rfl, h2.trans rfl, h3.trans rfl, h4, ?_, ?_, ?_, ?_⟩
    · rw [h5]
      show st.calls + 1 + m = st.calls + (m + 1)
      omega
    · rw [h6]
      show st.t + 30 + 30 * m = st.t + 30 * (m + 1)
      omega
    · intro c hc
      rcases h7 c hc with hin | hceq
      · have hev : ({ st with
            calls := st.calls + 1, t := st.t + 30,
            events := st.events
              ++ [Event.listMembers st.cursor,
                  .log ("Error: " ++ msgs st.calls ++ ". Retrying in 30 seconds..."),
                  .sleep 30] } : EngineSt).events = st.events
              ++ [Event.listMembers st.cursor,
                  .log ("Error: " ++ msgs st.calls ++ ". Retrying in 30 seconds..."),
                  .sleep 30] := rfl
        rw [hev] at hin
        rcases List.mem_append.mp hin with h | h
        · exact Or.inl h
        · right
          simp at h
          exact h
      · exact Or.inr hceq
    · intro k hk1 hk2
      by_cases hk0 : k = st.calls
      · subst hk0
        refine outerLoop_events_mono oc job m _ _ ?_
        exact List.mem_append_right _ (by simp)
      · have hcalls : ({ st with
            calls := st.calls + 1, t := st.t + 30,
            events := st.events
              ++ [Event.listMembers st.cursor,
                  .log ("Error: " ++ msgs st.calls ++ ". Retrying in 30 seconds..."),
                  .sleep 30] } : EngineSt).calls = st.calls + 1 := rfl
        refine h8 k ?_ ?_
        · rw [hcalls]
          omega
        · rw [hcalls]
          omega

/-- Witness for C8: two consecutive listing failures starting from a freshly
rehydrated state with a saved cursor leave the cursor checkpoint and the
in-memory cursor untouched, the loop live, and both retry logs emitted. -/
theorem C8_witness :
    (outerLoop
      ⟨fun _ => (true, false), fun _ => Except.error "",
        fun _ _ => Except.error "socket timeout", 1⟩
      jobSNP 2 (initEngine [] [("cmcontinue_snp", "CUR7")] jobSNP)).cursor
      = some "CUR7" ∧
    (outerLoop
      ⟨fun _ => (true, false), fun _ => Except.error "",
        fun _ _ => Except.error "socket timeout", 1⟩
      jobSNP 2 (initEngine [] [("cmcontinue_snp", "CUR7")] jobSNP)).done = false := by
  have h := C8_listing_retry
    ⟨fun _ => (true, false), fun _ => Except.error "",
      fun _ _ => Except.error "socket timeout", 1⟩
    jobSNP (fun _ => "socket timeout") (fun _ => rfl) (fun _ _ => rfl)
    2 (initEngine [] [("cmcontinue_snp", "CUR7")] jobSNP) rfl rfl
  exact ⟨h.1.trans (by decide), h.2.2.2.1⟩

theorem save_entries_error_rows (rows entries : List Row) (e : String)
    (h : (save_entries rows entries).1 = Except.error e) :
    (save_entries rows entries).2 = rows := by
  by_cases he : entries.isEmpty = true
  · have hnil : entries = [] := by cases entries <;> simp_all
    subst hnil
    simp [save_entries, transaction]
  · have hse : save_entries rows entries =
        (match executemany rows entries with
          | Except.ok db₂ => (Except.ok (), db₂)
          | Except.error s => (Except.error s, rows)) := by
      unfold save_entries transaction
      rw [if_neg he]
    cases hex : executemany rows entries with
    | ok out =>
      rw [hex] at hse
      rw [hse] at h
      simp at h
    | error s =>
      rw [hex] at hse
      rw [hse]

theorem countStep_neutral (c₀ : Nat) (acc : Option (Nat × Nat)) (e : Event)
    (he : ∀ es, e ≠ .insertTx es) (hv : ∀ v, e ≠ .saveCount v) :
    countStep c₀ acc e = acc := by
  cases acc with
  | none => rfl
  | some s =>
    cases s with
    | mk ins lastS =>
      cases e with
      | insertTx es => exact absurd rfl (he es)
      | saveCount v => exact absurd rfl (hv v)
      | existsQuery l => rfl
      | fetchBatch b => rfl
      | saveCursor c => rfl
      | status a b i => rfl
      | log m => rfl
      | errorLog i c => rfl
      | listMembers c => rfl
      | sleep s => rfl
      | spawnWorker => rfl

theorem countFold_neutral (c₀ : Nat) (acc : Option (Nat × Nat)) (evts : List Event)
    (h : ∀ e ∈ evts, (∀ es, e ≠ Event.insertTx es) ∧ (∀ v, e ≠ Event.saveCount v)) :
    List.foldl (countStep c₀) acc evts = acc := by
  induction evts generalizing acc with
  | nil => rfl
  | cons e rest ih =>
    rw [List.foldl_cons, countStep_neutral c₀ acc e (h e (by simp)).1 (h e (by simp)).2]
    exact ih acc (fun x hx => h x (by simp [hx]))

theorem statusEvents_mem (total : Nat) (entries : List Row) :
    ∀ (base : Nat), ∀ e ∈ statusEvents base total entries,
      ∃ a b i, e = Event.status a b i := by
  induction entries with
  | nil => intro base e he; simp [statusEvents] at he
  | cons r rest ih =>
    intro base e he
    cases r with
    | mk id c =>
      rw [statusEvents] at he
      rcases List.mem_cons.mp he with rfl | hr
      · exact ⟨_, _, _, rfl⟩
      · exact ih (base + 1) e hr

theorem chunkStep_CountInv (c₀ r₀ : Nat) (initGP : Option String)
    (oc : Oracles) (job : Job) (st : ChunkSt) (batch : List String)
    (hinv : CountInv c₀ r₀ initGP job.countKey st.count st.rows st.progress st.events) :
    CountInv c₀ r₀ initGP job.countKey (chunkStep oc job st batch).count
      (chunkStep oc job st batch).rows (chunkStep oc job st batch).progress
      (chunkStep oc job st batch).events := by
  rcases chunkStep_cases oc job st batch with h | h | h | ⟨t₁, e, hf, h⟩ |
    ⟨t₁, res, hf, hemp, h⟩ | ⟨t₁, res, rows₂, hf, hemp, hs, h⟩ |
    ⟨t₁, res, e, rows₂, hf, hemp, hs, h⟩ <;> rw [h]
  · exact hinv
  · exact hinv
  · exact hinv
  · obtain ⟨hcr, ⟨ins, lastS, hfold, hci, hls⟩, hgp⟩ := hinv
    refine ⟨hcr, ⟨ins, lastS, ?_, hci, hls⟩, hgp⟩
    simp only [List.foldl_append]
    rw [hfold]
    rw [countFold_neutral c₀ (some (ins, lastS))
      [Event.fetchBatch batch, Event.log ("Batch fetch error: " ++ e
        ++ ". Retrying individual items in 30 seconds...")]
      (by
        intro x hx
        rcases List.mem_cons.mp hx with rfl | hx₂
        · exact ⟨fun _ => by simp, fun _ => by simp⟩
        · rcases List.mem_cons.mp hx₂ with rfl | hx₃
          · exact ⟨fun _ => by simp, fun _ => by simp⟩
          · simp at hx₃)]
    rw [countFold_neutral c₀ (some (ins, lastS))
      (batch.map (fun id => Event.errorLog id (errorClass e)))
      (fun x hx => by
        obtain ⟨id, _, rfl⟩ := List.mem_map.mp hx
        exact ⟨fun _ => by simp, fun _ => by simp⟩)]
    rfl
  · obtain ⟨hcr, ⟨ins, lastS, hfold, hci, hls⟩, hgp⟩ := hinv
    refine ⟨hcr, ⟨ins, lastS, ?_, hci, hls⟩, hgp⟩
    simp only [List.foldl_append]
    rw [hfold]
    rw [countFold_neutral c₀ (some (ins, lastS)) [Event.fetchBatch batch]
      (by
        intro x hx
        rcases List.mem_cons.mp hx with rfl | hx₂
        · exact ⟨fun _ => by simp, fun _ => by simp⟩
        · simp at hx₂)]
    rw [countFold_neutral c₀ (some (ins, lastS)) (collectEntries res batch).2
      (fun x hx => by
        obtain ⟨m, rfl⟩ := collectEntries_events_logs res batch x hx
        exact ⟨fun _ => by simp, fun _ => by simp⟩)]
    rfl
  · obtain ⟨hcr, ⟨ins, lastS, hfold, hci, hls⟩, hgp⟩ := hinv
    have h1 : (save_entries st.rows (collectEntries res batch).1).1 = Except.ok () := by
      rw [hs]
    have h2 : (save_entries st.rows (collectEntries res batch).1).2 = rows₂ := by
      rw [hs]
    have hrows : rows₂ = st.rows ++ (collectEntries res batch).1 := by
      rw [← h2]
      exact save_entries_ok_append _ _ h1
    subst hrows
    refine ⟨?_,
      ⟨ins + (collectEntries res batch).1.length,
        st.count + (collectEntries res batch).1.length, ?_,
        by
          show st.count + (collectEntries res batch).1.length
            = c₀ + (ins + (collectEntries res batch).1.length)
          omega,
        Nat.le_refl _⟩,
      ?_⟩
    · show st.count + (collectEntries res batch).1.length + r₀
        = c₀ + (st.rows ++ (collectEntries res batch).1).length
      simp only [List.length_append]
      omega
    · simp only [List.foldl_append]
      rw [hfold]
      rw [countFold_neutral c₀ (some (ins, lastS)) [Event.fetchBatch batch]
        (by
          intro x hx
          rcases List.mem_cons.mp hx with rfl | hx₂
          · exact ⟨fun _ => by simp, fun _ => by simp⟩
          · simp at hx₂)]
      rw [countFold_neutral c₀ (some (ins, lastS)) (collectEntries res batch).2
        (fun x hx => by
          obtain ⟨m, rfl⟩ := collectEntries_events_logs res batch x hx
          exact ⟨fun _ => by simp, fun _ => by simp⟩)]
      rw [show List.foldl (countStep c₀) (some (ins, lastS))
          [Event.insertTx (collectEntries res batch).1]
          = some (ins + (collectEntries res batch).1.length, lastS) from rfl]
      rw [countFold_neutral c₀
        (some (ins + (collectEntries res batch).1.length, lastS))
        (statusEvents st.count job.total (collectEntries res batch).1)
        (fun x hx => by
          obtain ⟨a, b, i, rfl⟩ := statusEvents_mem job.total _ st.count x hx
          exact ⟨fun _ => by simp, fun _ => by simp⟩)]
      rw [List.foldl_cons]
      rw [show countStep c₀ (some (ins + (collectEntries res batch).1.length, lastS))
          (Event.saveCount (st.count + (collectEntries res batch).1.length))
          = some (ins + (collectEntries res batch).1.length,
              st.count + (collectEntries res batch).1.length) from by
        simp only [countStep]
        rw [if_pos ⟨by omega, by omega⟩]]
      rfl
    · right
      exact ⟨st.count + (collectEntries res batch).1.length, by omega, Nat.le_refl _,
        upsertProgress_get_self _ _ _⟩
  · obtain ⟨hcr, ⟨ins, lastS, hfold, hci, hls⟩, hgp⟩ := hinv
    have h1 : (save_entries st.rows (collectEntries res batch).1).1
        = Except.error e := by rw [hs]
    have h2 : (save_entries st.rows (collectEntries res batch).1).2 = rows₂ := by
      rw [hs]
    have hrows : rows₂ = st.rows := by
      rw [← h2]
      exact save_entries_error_rows _ _ e h1
    subst hrows
    refine ⟨hcr, ⟨ins, lastS, ?_, hci, hls⟩, hgp⟩
    simp only [List.foldl_append]
    rw [hfold]
    rw [countFold_neutral c₀ (some (ins, lastS)) [Event.fetchBatch batch]
      (by
        intro x hx
        rcases List.mem_cons.mp hx with rfl | hx₂
        · exact ⟨fun _ => by simp, fun _ => by simp⟩
        · simp at hx₂)]
    rw [countFold_neutral c₀ (some (ins, lastS)) (collectEntries res batch).2
      (fun x hx => by
        obtain ⟨m, rfl⟩ := collectEntries_events_logs res batch x hx
        exact ⟨fun _ => by simp, fun _ => by simp⟩)]
    rw [countFold_neutral c₀ (some (ins, lastS))
      [Event.log ("Batch fetch error: " ++ e
        ++ ". Retrying individual items in 30 seconds...")]
      (by
        intro x hx
        rcases List.mem_cons.mp hx with rfl | hx₂
        · exact ⟨fun _ => by simp, fun _ => by simp⟩
        · simp at hx₂)]
    rw [countFold_neutral c₀ (some (ins, lastS))
      (batch.map (fun id => Event.errorLog id (errorClass e)))
      (fun x hx => by
        obtain ⟨id, _, rfl⟩ := List.mem_map.mp hx
        exact ⟨fun _ => by simp, fun _ => by simp⟩)]
    rfl

theorem runChunks_CountInv (c₀ r₀ : Nat) (initGP : Option String)
    (oc : Oracles) (job : Job) :
    ∀ (chunks : List (List String)) (st : ChunkSt),
      CountInv c₀ r₀ initGP job.countKey st.count st.rows st.progress st.events →
      CountInv c₀ r₀ initGP job.countKey (runChunks oc job st chunks).count
        (runChunks oc job st chunks).rows (runChunks oc job st chunks).progress
        (runChunks oc job st chunks).events := by
  intro chunks
  induction chunks with
  | nil => exact fun st h => h
  | cons c rest ih =>
    intro st h
    rw [runChunks_cons]
    exact ih _ (chunkStep_CountInv c₀ r₀ initGP oc job st c h)

theorem pageStart_CountInv (c₀ r₀ : Nat) (initGP : Option String)
    (job : Job) (st : EngineSt) (members : List String)
    (hinv : CountInv c₀ r₀ initGP job.countKey st.count st.rows st.progress st.events) :
    CountInv c₀ r₀ initGP job.countKey (pageStart job st members).count
      (pageStart job st members).rows (pageStart job st members).progress
      (pageStart job st members).events := by
  obtain ⟨hcr, ⟨ins, lastS, hfold, hci, hls⟩, hgp⟩ := hinv
  refine ⟨hcr, ⟨ins, lastS, ?_, hci, hls⟩, hgp⟩
  show List.foldl (countStep c₀) (some (0, c₀))
    (st.events ++ [Event.existsQuery (members.map normalizeTitle)]
      ++ (if (batch_check_exists st.rows (members.map normalizeTitle)).length > 0 then
            [Event.log ("Skipping "
              ++ toString (batch_check_exists st.rows (members.map normalizeTitle)).length
              ++ " already scraped " ++ job.itemName ++ "s")]
          else [])) = some (ins, lastS)
  simp only [List.foldl_append]
  rw [hfold]
  split
  · rfl
  · rfl

theorem processPage_CountInv (c₀ r₀ : Nat) (initGP : Option String)
    (oc : Oracles) (job : Job) (st : EngineSt) (members : List String)
    (nc : Option String)
    (hk : job.countKey ≠ job.continueKey)
    (hinv : CountInv c₀ r₀ initGP job.countKey st.count st.rows st.progress st.events) :
    CountInv c₀ r₀ initGP job.countKey (processPage oc job st members nc).count
      (processPage oc job st members nc).rows
      (processPage oc job st members nc).progress
      (processPage oc job st members nc).events := by
  have h₁ := runChunks_CountInv c₀ r₀ initGP oc job (pageChunks job st members)
    (pageStart job st members) (pageStart_CountInv c₀ r₀ initGP job st members hinv)
  unfold processPage
  by_cases hbl : (runChunks oc job (pageStart job st members)
      (pageChunks job st members)).blocked = true
  · rw [if_pos hbl]
    exact h₁
  · rw [if_neg hbl]
    cases nc with
    | none =>
      obtain ⟨hcr, ⟨ins, lastS, hfold, hci, hls⟩, hgp⟩ := h₁
      refine ⟨hcr, ⟨ins, lastS, ?_, hci, hls⟩, hgp⟩
      show List.foldl (countStep c₀) (some (0, c₀))
        ((runChunks oc job (pageStart job st members) (pageChunks job st members)).events
          ++ [Event.log ("Scraping complete: Reached end of " ++ job.itemName
            ++ " list.")]) = some (ins, lastS)
      simp only [List.foldl_append]
      rw [hfold]
      rfl
    | some c =>
      obtain ⟨hcr, ⟨ins, lastS, hfold, hci, hls⟩, hgp⟩ := h₁
      refine ⟨hcr, ⟨ins, lastS, ?_, hci, hls⟩, ?_⟩
      · show List.foldl (countStep c₀) (some (0, c₀))
          ((runChunks oc job (pageStart job st members) (pageChunks job st members)).events
            ++ [Event.saveCursor c, Event.sleep 2]) = some (ins, lastS)
        simp only [List.foldl_append]
        rw [hfold]
        rfl
      · show get_progress (upsertProgress
            (runChunks oc job (pageStart job st members) (pageChunks job st members)).progress
            job.continueKey c) job.countKey = initGP ∨
          ∃ m, c₀ ≤ m ∧ m ≤ (runChunks oc job (pageStart job st members)
            (pageChunks job st members)).count ∧
            get_progress (upsertProgress
              (runChunks oc job (pageStart job st members)
                (pageChunks job st members)).progress
              job.continueKey c) job.countKey = some (toString m)
        rw [upsertProgress_get_ne _ _ _ _ (fun hh => hk hh.symm)]
        exact hgp

theorem outerStep_CountInv (c₀ r₀ : Nat) (initGP : Option String)
    (oc : Oracles) (job : Job) (st : EngineSt)
    (hk : job.countKey ≠ job.continueKey)
    (hinv : CountInv c₀ r₀ initGP job.countKey st.count st.rows st.progress st.events) :
    CountInv c₀ r₀ initGP job.countKey (outerStep oc job st).count
      (outerStep oc job st).rows (outerStep oc job st).progress
      (outerStep oc job st).events := by
  unfold outerStep
  by_cases h1 : (st.done || st.blocked) = true
  · rw [if_pos h1]
    exact hinv
  · rw [if_neg h1]
    by_cases h2 : (!(oc.flags st.t).1) = true
    · rw [if_pos h2]
      exact hinv
    · rw [if_neg h2]
      by_cases h3 : (oc.flags st.t).2 = true
      · rw [if_pos h3]
        obtain ⟨hcr, ⟨ins, lastS, hfold, hci, hls⟩, hgp⟩ := hinv
        refine ⟨hcr, ⟨ins, lastS, ?_, hci, hls⟩, hgp⟩
        show List.foldl (countStep c₀) (some (0, c₀))
          (st.events ++ [Event.sleep 1]) = some (ins, lastS)
        simp only [List.foldl_append]
        rw [hfold]
        rfl
      · rw [if_neg h3]
        cases hl : oc.listing st.calls st.cursor with
        | error e =>
          obtain ⟨hcr, ⟨ins, lastS, hfold, hci, hls⟩, hgp⟩ := hinv
          refine ⟨hcr, ⟨ins, lastS, ?_, hci, hls⟩, hgp⟩
          show List.foldl (countStep c₀) (some (0, c₀))
            (st.events ++ [Event.listMembers st.cursor,
              Event.log ("Error: " ++ e ++ ". Retrying in 30 seconds..."),
              Event.sleep 30]) = some (ins, lastS)
          simp only [List.foldl_append]
          rw [hfold]
          rfl
        | ok p =>
          cases p with
          | mk mem nc₂ =>
            refine processPage_CountInv c₀ r₀ initGP oc job _ mem nc₂ hk ?_
            obtain ⟨hcr, ⟨ins, lastS, hfold, hci, hls⟩, hgp⟩ := hinv
            refine ⟨hcr, ⟨ins, lastS, ?_, hci, hls⟩, hgp⟩
            show List.foldl (countStep c₀) (some (0, c₀))
              (st.events ++ [Event.listMembers st.cursor]) = some (ins, lastS)
            simp only [List.foldl_append]
            rw [hfold]
            rfl

theorem outerLoop_CountInv (c₀ r₀ : Nat) (initGP : Option String)
    (oc : Oracles) (job : Job) (hk : job.countKey ≠ job.continueKey) :
    ∀ (fuel : Nat) (st : EngineSt),
      CountInv c₀ r₀ initGP job.countKey st.count st.rows st.progress st.events →
      CountInv c₀ r₀ initGP job.countKey (outerLoop oc job fuel st).count
        (outerLoop oc job fuel st).rows (outerLoop oc job fuel st).progress
        (outerLoop oc job fuel st).events := by
  intro fuel
  induction fuel with
  | zero => exact fun st h => h
  | succ m ih =>
    intro st h
    rw [outerLoop]
    by_cases hd : (st.done || st.blocked) = true
    · rw [if_pos hd]
      exact h
    · rw [if_neg hd]
      exact ih _ (outerStep_CountInv c₀ r₀ initGP oc job st hk h)

/-- C3: over any run from a rehydrated state, the in-memory count never
decreases and advances exactly with the rows durably inserted; the event
trace passes the count-checkpoint checker — every persisted count is at
least the previously persisted one and at most the rehydrated count plus
the records committed so far, and it is written only after (never before)
the corresponding insert, since the checker scans events in program order;
and the stored checkpoint value ends as either the untouched initial value
or the decimal repr of a count between the rehydrated and the final one —
so a restart that rehydrates from the store never sees a smaller count. -/
theorem C3_count_checkpoint_discipline (oc : Oracles) (job : Job) (fuel : Nat)
    (rows : List Row) (progress : List (String × String))
    (hk : job.countKey ≠ job.continueKey) :
    (initEngine rows progress job).count
      ≤ (outerLoop oc job fuel (initEngine rows progress job)).count ∧
    (outerLoop oc job fuel (initEngine rows progress job)).count + rows.length
      = (initEngine rows progress job).count
        + (outerLoop oc job fuel (initEngine rows progress job)).rows.length ∧
    (∃ ins lastS,
      checkCount (initEngine rows progress job).count
        (outerLoop oc job fuel (initEngine rows progress job)).events
        = some (ins, lastS) ∧
      (outerLoop oc job fuel (initEngine rows progress job)).count
        = (initEngine rows progress job).count + ins ∧
      lastS ≤ (outerLoop oc job fuel (initEngine rows progress job)).count) ∧
    rehydrateCount
      (outerLoop oc job fuel (initEngine rows progress job)).progress job.countKey
      ≥ rehydrateCount progress job.countKey := by
  have hinit : CountInv (initEngine rows progress job).count rows.length
      (get_progress progress job.countKey) job.countKey
      (initEngine rows progress job).count rows progress [] :=
    ⟨rfl, ⟨0, (initEngine rows progress job).count, rfl, by omega, Nat.le_refl _⟩,
      Or.inl rfl⟩
  have hfin := outerLoop_CountInv (initEngine rows progress job).count rows.length
    (get_progress progress job.countKey) oc job hk fuel
    (initEngine rows progress job) hinit
  obtain ⟨hcr, ⟨ins, lastS, hfold, hci, hls⟩, hgp⟩ := hfin
  refine ⟨by omega, by omega, ⟨ins, lastS, hfold, hci, hls⟩, ?_⟩
  have hrc : rehydrateCount progress job.countKey = (initEngine rows progress job).count :=
    rfl
  rcases hgp with hsame | ⟨m, hm₁, hm₂, hm₃⟩
  · have : rehydrateCount
        (outerLoop oc job fuel (initEngine rows progress job)).progress job.countKey
        = rehydrateCount progress job.countKey := by
      unfold rehydrateCount
      rw [hsame]
    omega
  · have := rehydrateCount_toString _ job.countKey m hm₃
    omega

/-- Witness for C3: a run that rehydrates count 5 from the store, scrapes
one record and checkpoints 6 — the re-rehydrated count does not decrease. -/
theorem C3_witness :
    rehydrateCount
      (outerLoop
        ⟨fun _ => (true, false), fun _ => Except.ok [("rs1", some "X")],
          fun _ _ => Except.ok (["rs1"], none), 1⟩
        jobSNP 2 (initEngine [] [("snp_count", "5")] jobSNP)).progress "snp_count"
      ≥ rehydrateCount [("snp_count", "5")] "snp_count" := by
  have h := C3_count_checkpoint_discipline
    ⟨fun _ => (true, false), fun _ => Except.ok [("rs1", some "X")],
      fun _ _ => Except.ok (["rs1"], none), 1⟩
    jobSNP 2 [] [("snp_count", "5")] (by decide)
  exact h.2.2.2
